import Mathlib

/-!
# alfred-bookmarks: the aggregation engine and the Chromium adapter

A shallow embedding of `pkg/bookmarker/engine.go` and `pkg/bookmarker/chrome.go`.

* Go strings are Lean `String`s; the byte-level library functions used by the code
  (`strings.HasPrefix`, `filepath.Join`) only look for the ASCII bytes `/` and `.`,
  so on UTF-8 text they act on characters exactly as they act on bytes.
* A Go call that returns `(T, error)` is a pair `T × Option GoError`; a call that may
  also stop with a run-time panic (nil dereference) is an `Option` of that pair,
  `none` being the panic.
* A `nil` pointer is `none`; a `nil` slice is `none`, an empty non-nil slice `some []`.
-/

set_option autoImplicit false

namespace bookmarker

/-! ## Record model -/

/-- Modelled from the spec: the declaration of `bookmarkerName` and of its constants
`Firefox`, `Chrome`, `Safari` is in a file other than engine.go and chrome.go; the spec calls it "one of a
fixed enumerated set" of browser families, and the code names these three. -/
inductive bookmarkerName where
  | Firefox
  | Chrome
  | Safari
deriving DecidableEq, Repr

export bookmarkerName (Firefox Chrome Safari)

/-- The Go `Bookmark` struct, with the fields written by `convertToBookmarks`
(chrome.go lines 89-95). -/
structure Bookmark where
  BookmarkerName : bookmarkerName
  Folder : String
  Title : String
  Domain : String
  URI : String
deriving DecidableEq, Repr

/-- The Go type `Bookmarks`, an ordered collection of Records. -/
abbrev Bookmarks := List Bookmark

/-- Go `strings.HasPrefix s p`: `s` starts with the literal string `p`. -/
def hasPrefix (s p : String) : Bool := p.data.isPrefixOf s.data

/-- Modelled from the spec: `filterByFolderPrefix` is called by engine.go but defined in
another file of the package. Spec: "retain only Records whose `folder` starts with the literal
string `q`; order preserved". -/
def filterByFolderPrefix (b : Bookmarks) (q : String) : Bookmarks :=
  b.filter (fun e => hasPrefix e.Folder q)

/-- The pass of `uniqByURI` over the collection, `seen` being the uris already retained. -/
def uniqFrom : List String → Bookmarks → Bookmarks
  | _, [] => []
  | seen, e :: rest =>
    if e.URI ∈ seen then uniqFrom seen rest else e :: uniqFrom (e.URI :: seen) rest

/-- Modelled from the spec: `uniqByURI` is called by engine.go but defined in another
file of the package. Spec: "retain the first occurrence of each distinct `uri` value, in
collection order, dropping all subsequent Records sharing that `uri` regardless of other
field differences"; equality is exact string equality. -/
def uniqByURI (b : Bookmarks) : Bookmarks := uniqFrom [] b

/-! ## Errors -/

/-- Go `error` values as far as the engine builds or inspects them: an error of a
collaborator, or the wrapping `fmt.Errorf("failed to load bookmarks in %s: %w", name, err)`
of engine.go line 101. -/
inductive GoError where
  | errorString (msg : String)
  | loadFailed (name : bookmarkerName) (err : GoError)
deriving DecidableEq, Repr

/-- Go `errors.Unwrap`: the error wrapped by `%w`, if any. -/
def GoError.Unwrap : GoError → Option GoError
  | .errorString _ => none
  | .loadFailed _ err => some err

/-- The message `err.Error()`. The text that `%s` prints for a family name is fixed by
the absent declaration of `bookmarkerName`, hence the parameter `nameString`. -/
def GoError.Error (nameString : bookmarkerName → String) : GoError → String
  | .errorString msg => msg
  | .loadFailed name err =>
    "failed to load bookmarks in " ++ nameString name ++ ": " ++ GoError.Error nameString err

/-! ## `filepath.Join` (Go standard library, Unix) -/

/-- The backtracking of `filepath.Clean` on a `..` element: starting from index `w`
(already decremented once), `for out.w > dotdot && !os.IsPathSeparator(out.index(out.w))
{ out.w-- }`; the result is the new write index. -/
def Clean.backtrack (buf : List Char) (dotdot : Nat) : Nat → Nat
  | 0 => 0
  | w + 1 =>
    if dotdot < w + 1 ∧ buf.getD (w + 1) '/' ≠ '/' then Clean.backtrack buf dotdot w
    else w + 1

/-- The "add slash if needed" step that `filepath.Clean` runs before copying a real path
element: `if rooted && out.w != 1 || !rooted && out.w != 0 { out.append(Separator) }`. -/
def Clean.addSlash (rooted : Bool) (out : List Char) : List Char :=
  if (rooted = true ∧ out.length ≠ 1) ∨ (rooted = false ∧ out.length ≠ 0) then out ++ ['/']
  else out

mutual
/-- The main loop `for r < n` of `filepath.Clean`: the first argument is the unread part
`path[r:]`, `out` the bytes written so far (`out.w` is its length), `dotdot` the index
where `..` must stop. -/
def Clean.scan (rooted : Bool) : List Char → List Char → Nat → List Char
  | [], out, _ => out
  | c :: rest, out, dotdot =>
    if c = '/' then
      -- empty path element
      Clean.scan rooted rest out dotdot
    else if c = '.' ∧ (rest = [] ∨ rest.head? = some '/') then
      -- . element
      Clean.scan rooted rest out dotdot
    else if c = '.' ∧ rest.head? = some '.' ∧ (rest.tail = [] ∨ rest.tail.head? = some '/') then
      -- .. element: remove to last separator
      match rest with
      | [] => out
      | _ :: rest2 =>
        if dotdot < out.length then
          -- can backtrack
          Clean.scan rooted rest2
            (out.take (Clean.backtrack out dotdot (out.length - 1))) dotdot
        else if rooted = false then
          -- cannot backtrack, but not rooted, so append .. element
          Clean.scan rooted rest2
            ((if 0 < out.length then out ++ ['/'] else out) ++ ['.', '.'])
            ((if 0 < out.length then out ++ ['/'] else out) ++ ['.', '.']).length
        else Clean.scan rooted rest2 out dotdot
    else
      -- real path element: add slash if needed, then copy the element
      Clean.copy rooted rest (Clean.addSlash rooted out ++ [c]) dotdot
/-- The inner loop of `filepath.Clean` that copies a real path element up to the next
separator or the end; the separator that ends it is then skipped by the main loop. -/
def Clean.copy (rooted : Bool) : List Char → List Char → Nat → List Char
  | [], out, _ => out
  | c :: rest, out, dotdot =>
    if c = '/' then Clean.scan rooted rest out dotdot
    else Clean.copy rooted rest (out ++ [c]) dotdot
end

/-- Go `filepath.Clean` on Unix (no volume names, `FromSlash` is the identity). -/
def Clean (path : String) : String :=
  if path = "" then "."
  else
    let out :=
      if path.data.head? = some '/' then Clean.scan true path.data.tail ['/'] 1
      else Clean.scan false path.data [] 0
    -- turn empty string into "."
    if out.length = 0 then "." else String.mk out

/-- Go `filepath.Join(a, b)`: the elements from the first non-empty one on are joined
with `/` and the result is cleaned; all elements empty gives the empty string. -/
def Join (a b : String) : String :=
  if a ≠ "" then Clean (a ++ "/" ++ b)
  else if b ≠ "" then Clean b
  else ""

/-! ## Chromium adapter (chrome.go) -/

/-- Go `url.URL`, the parsed URL, as far as the adapter reads it (`u.Host`). -/
structure url.URL where
  Host : String
deriving DecidableEq, Repr

/-- The Go struct `chromeBookmarkEntry` (chrome.go lines 11-20). `Children` is a slice of
pointers: `none` is the nil slice, and an element `none` is a nil pointer. -/
inductive chromeBookmarkEntry where
  | mk (DateAdded GUID ID Name Type_ URL : String)
      (Children : Option (List (Option chromeBookmarkEntry)))
      (DateModified : String)

/-- Field `Name`. -/
def chromeBookmarkEntry.Name : chromeBookmarkEntry → String
  | .mk _ _ _ name _ _ _ _ => name

/-- Field `Type`. -/
def chromeBookmarkEntry.Type_ : chromeBookmarkEntry → String
  | .mk _ _ _ _ type _ _ _ => type

/-- Field `URL`. -/
def chromeBookmarkEntry.URL : chromeBookmarkEntry → String
  | .mk _ _ _ _ _ url _ _ => url

/-- Field `Children`. -/
def chromeBookmarkEntry.Children :
    chromeBookmarkEntry → Option (List (Option chromeBookmarkEntry))
  | .mk _ _ _ _ _ _ children _ => children

mutual
/-- The method `convertToBookmarks` (chrome.go lines 72-105) on a non-nil receiver.
`validateURL` is defined in another file of the package; it is a parameter. The result is
`none` when the traversal dereferences a nil pointer. -/
def chromeBookmarkEntry.convertToBookmarks (validateURL : String → Except GoError url.URL) :
    chromeBookmarkEntry → String → Option (List Bookmark)
  | .mk _ _ _ name type url children _, folder =>
    if type = "folder" then
      if children.isNone then
        -- if node has no entry, stop recursive
        some []
      else
        chromeBookmarkEntry.rangeChildren validateURL children
          (if name ≠ "" then Join folder name else folder)
    else if type = "url" then
      match validateURL url with
      | .error _ => some []
      | .ok u =>
        (chromeBookmarkEntry.rangeChildren validateURL children folder).map
          (fun rest =>
            [{ BookmarkerName := Chrome, Folder := folder, Title := name, URI := url,
               Domain := u.Host }] ++ rest)
    else chromeBookmarkEntry.rangeChildren validateURL children folder
/-- The loop `for _, e := range entry.Children` (chrome.go lines 100-102); ranging over a
nil slice runs no iteration. -/
def chromeBookmarkEntry.rangeChildren (validateURL : String → Except GoError url.URL) :
    Option (List (Option chromeBookmarkEntry)) → String → Option (List Bookmark)
  | none, _ => some []
  | some es, folder => chromeBookmarkEntry.rangeEntries validateURL es folder
/-- The iterations of that loop over the remaining elements of the slice. -/
def chromeBookmarkEntry.rangeEntries (validateURL : String → Except GoError url.URL) :
    List (Option chromeBookmarkEntry) → String → Option (List Bookmark)
  | [], _ => some []
  | e :: es, folder =>
    match chromeBookmarkEntry.convertPtr validateURL e folder with
    | none => none
    | some b =>
      (chromeBookmarkEntry.rangeEntries validateURL es folder).map (fun rest => b ++ rest)
/-- The call `e.convertToBookmarks(folder)` through a pointer `e`: on a nil pointer the
read of `entry.Type` (line 73) panics. -/
def chromeBookmarkEntry.convertPtr (validateURL : String → Except GoError url.URL) :
    Option chromeBookmarkEntry → String → Option (List Bookmark)
  | none, _ => none
  | some entry, folder => chromeBookmarkEntry.convertToBookmarks validateURL entry folder
end

mutual
/-- No pointer in the tree below the entry is nil. -/
def chromeBookmarkEntry.nilFree : chromeBookmarkEntry → Bool
  | .mk _ _ _ _ _ _ children _ => chromeBookmarkEntry.nilFreeChildren children
/-- No pointer in the trees of a children slice is nil. -/
def chromeBookmarkEntry.nilFreeChildren : Option (List (Option chromeBookmarkEntry)) → Bool
  | none => true
  | some es => chromeBookmarkEntry.nilFreeEntries es
/-- No pointer in the trees of the remaining elements is nil. -/
def chromeBookmarkEntry.nilFreeEntries : List (Option chromeBookmarkEntry) → Bool
  | [] => true
  | e :: es => chromeBookmarkEntry.nilFreePtr e && chromeBookmarkEntry.nilFreeEntries es
/-- The pointer is not nil and no pointer below it is. -/
def chromeBookmarkEntry.nilFreePtr : Option chromeBookmarkEntry → Bool
  | none => false
  | some entry => chromeBookmarkEntry.nilFree entry
end

/-- The anonymous struct `Roots` of `chromeBookmarkRoot` (chrome.go lines 24-28). -/
structure chromeBookmarkRoots where
  BookmarkBar : Option chromeBookmarkEntry
  Other : Option chromeBookmarkEntry
  Synced : Option chromeBookmarkEntry

/-- The Go struct `chromeBookmarkRoot` (chrome.go lines 22-30). -/
structure chromeBookmarkRoot where
  Checksum : String
  Roots : chromeBookmarkRoots
  Version : Int

/-- The Go struct `chromeBookmark` (chrome.go lines 32-35). -/
structure chromeBookmark where
  bookmarkRoot : chromeBookmarkRoot
  bookmarkPath : String

/-- The method `chromeBookmark.Bookmarks` (chrome.go lines 45-58). `load` stands for the
method `load` (lines 61-69), which opens the file at the path and decodes it into the
root held by the receiver: it maps the path and the current root to the new root and the
error of `os.Open` or of the decoder. -/
def chromeBookmark.Bookmarks
    (load : String → chromeBookmarkRoot → chromeBookmarkRoot × Option GoError)
    (validateURL : String → Except GoError url.URL) (b : chromeBookmark) :
    Option (List Bookmark × Option GoError) :=
  match load b.bookmarkPath b.bookmarkRoot with
  | (_, some err) => some ([], some err)
  | (root, none) =>
    match chromeBookmarkEntry.convertPtr validateURL root.Roots.BookmarkBar "/" with
    | none => none
    | some barBookmarks =>
      match chromeBookmarkEntry.convertPtr validateURL root.Roots.Synced "/" with
      | none => none
      | some syncedBookmarks =>
        match chromeBookmarkEntry.convertPtr validateURL root.Roots.Other "/" with
        | none => none
        | some othersBookmarks =>
          some (barBookmarks ++ syncedBookmarks ++ othersBookmarks, none)

/-! ## Aggregation engine (engine.go) -/

/-- The Go interface `Bookmarker`: the outcome of its one method `Bookmarks()`, a pair
`(Bookmarks, error)`, or `none` when the call panics. -/
structure Bookmarker where
  Bookmarks : Option (List Bookmark × Option GoError)

/-- The Go struct `engine` (engine.go lines 6-10); the map is a partial function. -/
structure engine where
  bookmarkers : bookmarkerName → Option Bookmarker
  removeDuplicates : Bool
  folderQuery : String

/-- The loop of `engine.Bookmarks` (engine.go lines 92-104) over the remaining family
names, `bookmarks` being the collection accumulated so far. On a failing adapter the
accumulated collection is returned with the wrapped error (line 101). -/
def engine.collect (e : engine) :
    List bookmarkerName → Bookmarks → Option (Bookmarks × Option GoError)
  | [], bookmarks => some (bookmarks, none)
  | name :: rest, bookmarks =>
    match e.bookmarkers name with
    | none => engine.collect e rest bookmarks
    | some bookmarker =>
      match bookmarker.Bookmarks with
      | none => none
      | some (_, some err) => some (bookmarks, some (GoError.loadFailed name err))
      | some (b, none) => engine.collect e rest (bookmarks ++ b)

/-- The method `engine.Bookmarks` (engine.go lines 90-117). The priority table returned by
`getSupportedBookmarkerNames()` is declared in another file of the package; it is the
parameter `names`. -/
def engine.Bookmarks (names : List bookmarkerName) (e : engine) :
    Option (Bookmarks × Option GoError) :=
  match engine.collect e names [] with
  | none => none
  | some (bookmarks, some err) => some (bookmarks, some err)
  | some (bookmarks, none) =>
    let bookmarks :=
      if e.folderQuery ≠ "" then filterByFolderPrefix bookmarks e.folderQuery else bookmarks
    let bookmarks := if e.removeDuplicates then uniqByURI bookmarks else bookmarks
    some (bookmarks, none)

/-- The collection that the enabled adapter of family `name` returns (empty when the
family is disabled). -/
def engine.recordsOf (e : engine) (name : bookmarkerName) : List Bookmark :=
  match e.bookmarkers name with
  | none => []
  | some bk =>
    match bk.Bookmarks with
    | some (b, _) => b
    | none => []

/-- The concatenation of the enabled adapters' collections, in the order of `names`. -/
def engine.concatenation (e : engine) (names : List bookmarkerName) : List Bookmark :=
  names.flatMap (engine.recordsOf e)

/-- The collaborators that the option functions and the Chromium adapter call: the URI
validator, the file opening and decoding of `chromeBookmark.load`, the profile path
resolvers, and the constructors of the Firefox and Safari adapters. They read the file
system or live in other files of the package. `GetChromeBookmarkFile` (chrome.go lines
108-121) only consults the home directory and the profile directories; like the other
resolvers it is a parameter, with the two arguments that engine.go line 31 passes. -/
structure Collaborators where
  validateURL : String → Except GoError url.URL
  load : String → chromeBookmarkRoot → chromeBookmarkRoot × Option GoError
  GetFirefoxBookmarkFile : String → String → String × Option GoError
  GetChromeBookmarkFile : String → String → String × Option GoError
  GetSafariBookmarkFile : String × Option GoError
  NewFirefox : String → Bookmarker
  NewSafari : String → Bookmarker

/-- The function `NewChrome` (chrome.go lines 38-42): an adapter holding the path and a
zero-valued root. -/
def NewChrome (w : Collaborators) (path : String) : Bookmarker :=
  { Bookmarks := chromeBookmark.Bookmarks w.load w.validateURL
      { bookmarkRoot :=
          { Checksum := "", Roots := { BookmarkBar := none, Other := none, Synced := none },
            Version := 0 },
        bookmarkPath := path } }

/-- The Go type `Option` of engine.go line 13, `func(e *engine) error`: the engine after
the call, and the error returned. -/
abbrev OptionFn := engine → engine × Option GoError

/-- The assignment `e.bookmarkers[name] = b`. -/
def engine.setBookmarker (e : engine) (name : bookmarkerName) (b : Bookmarker) : engine :=
  { e with bookmarkers := fun n => if n = name then some b else e.bookmarkers n }

/-- The option `OptionFirefox` (engine.go lines 16-26). -/
def OptionFirefox (w : Collaborators) (profilePath profileName : String) : OptionFn :=
  fun e =>
    match w.GetFirefoxBookmarkFile profilePath profileName with
    | (_, some err) => (e, some err)
    | (path, none) => (e.setBookmarker Firefox (w.NewFirefox path), none)

/-- The option `OptionChrome` (engine.go lines 29-39). -/
def OptionChrome (w : Collaborators) (profilePath profileName : String) : OptionFn :=
  fun e =>
    match w.GetChromeBookmarkFile profilePath profileName with
    | (_, some err) => (e, some err)
    | (path, none) => (e.setBookmarker Chrome (NewChrome w path), none)

/-- The option `OptionSafari` (engine.go lines 42-52). -/
def OptionSafari (w : Collaborators) : OptionFn :=
  fun e =>
    match w.GetSafariBookmarkFile with
    | (_, some err) => (e, some err)
    | (path, none) => (e.setBookmarker Safari (w.NewSafari path), none)

/-- The option `OptionRemoveDuplicates` (engine.go lines 55-60). -/
def OptionRemoveDuplicates : OptionFn :=
  fun e => ({ e with removeDuplicates := true }, none)

/-- The option `OptionFilterByFolder` (engine.go lines 63-68). -/
def OptionFilterByFolder (folderQuery : String) : OptionFn :=
  fun e => ({ e with folderQuery := folderQuery }, none)

/-- The loop of `New` (engine.go lines 76-84) over the remaining options; a nil option
(`none`) is skipped. -/
def New.apply : List (Option OptionFn) → engine → engine × Option GoError
  | [], e => (e, none)
  | none :: opts, e => New.apply opts e
  | some opt :: opts, e =>
    match opt e with
    | (e1, some err) => (e1, some err)
    | (e1, none) => New.apply opts e1

/-- The function `New` (engine.go lines 71-87): the options are applied in order to an
engine with an empty map. -/
def New (opts : List (Option OptionFn)) : engine × Option GoError :=
  New.apply opts { bookmarkers := fun _ => none, removeDuplicates := false, folderQuery := "" }

/-- The option values that engine.go can build: one of its five option constructors
applied to arguments, or a nil option. -/
inductive OptionCall where
  | firefox (profilePath profileName : String)
  | chrome (profilePath profileName : String)
  | safari
  | removeDuplicates
  | filterByFolder (folderQuery : String)
  | nil
deriving DecidableEq, Repr

/-- The option that an `OptionCall` denotes. -/
def OptionCall.toOption (w : Collaborators) : OptionCall → Option OptionFn
  | .firefox profilePath profileName => some (OptionFirefox w profilePath profileName)
  | .chrome profilePath profileName => some (OptionChrome w profilePath profileName)
  | .safari => some (OptionSafari w)
  | .removeDuplicates => some OptionRemoveDuplicates
  | .filterByFolder folderQuery => some (OptionFilterByFolder folderQuery)
  | .nil => none

/-- The family that an option enables, if it enables one. -/
def OptionCall.family : OptionCall → Option bookmarkerName
  | .firefox _ _ => some Firefox
  | .chrome _ _ => some Chrome
  | .safari => some Safari
  | _ => none

/-- The folder query that an option sets, if it sets one. -/
def OptionCall.query : OptionCall → Option String
  | .filterByFolder folderQuery => some folderQuery
  | _ => none

/-- The error that an option returns, if it fails; it does not depend on the engine. -/
def OptionCall.failure (w : Collaborators) : OptionCall → Option GoError
  | .firefox profilePath profileName => (w.GetFirefoxBookmarkFile profilePath profileName).2
  | .chrome profilePath profileName => (w.GetChromeBookmarkFile profilePath profileName).2
  | .safari => w.GetSafariBookmarkFile.2
  | _ => none

/-- The change that an option makes to the engine when it succeeds. -/
def OptionCall.effect (w : Collaborators) : OptionCall → engine → engine
  | .firefox profilePath profileName, e =>
    e.setBookmarker Firefox (w.NewFirefox (w.GetFirefoxBookmarkFile profilePath profileName).1)
  | .chrome profilePath profileName, e =>
    e.setBookmarker Chrome (NewChrome w (w.GetChromeBookmarkFile profilePath profileName).1)
  | .safari, e => e.setBookmarker Safari (w.NewSafari w.GetSafariBookmarkFile.1)
  | .removeDuplicates, e => { e with removeDuplicates := true }
  | .filterByFolder folderQuery, e => { e with folderQuery := folderQuery }
  | .nil, e => e

/-- The engine that `New` starts from (engine.go lines 72-74): an empty map, the flag
unset, no folder query. -/
def newEngine : engine :=
  { bookmarkers := fun _ => none, removeDuplicates := false, folderQuery := "" }

/-- The engine after applying the options in order, each to the engine left by the one
before it; a nil option changes nothing. This follows the words of the spec ("applies
options in the order given"), without the abort. -/
def applyInOrder : List (Option OptionFn) → engine → engine
  | [], e => e
  | none :: opts, e => applyInOrder opts e
  | some opt :: opts, e => applyInOrder opts (opt e).1

/-- No option of the sequence fails, each being run on the engine left by the ones before
it. -/
def noneFails : List (Option OptionFn) → engine → Bool
  | [], _ => true
  | none :: opts, e => noneFails opts e
  | some opt :: opts, e => (opt e).2.isNone && noneFails opts (opt e).1

/-! ## Sample data used by the concrete checks -/

/-- A Record of the Firefox adapter, in folder `/A`. -/
def recordA : Bookmark :=
  { BookmarkerName := Firefox, Folder := "/A", Title := "x", Domain := "x.com",
    URI := "http://x.com" }

/-- A Record of the Chrome adapter with the same uri, in folder `/B`. -/
def recordB : Bookmark :=
  { BookmarkerName := Chrome, Folder := "/B", Title := "x", Domain := "x.com",
    URI := "http://x.com" }

/-- An adapter that returns the given collection. -/
def succeeding (b : List Bookmark) : Bookmarker := { Bookmarks := some (b, none) }

/-- An adapter whose source cannot be opened. -/
def failing : Bookmarker :=
  { Bookmarks := some ([], some (GoError.errorString "open Bookmarks: no such file")) }

/-- An engine whose Firefox adapter yields `recordA` and whose Chrome adapter fails. -/
def failFastEngine : engine :=
  { bookmarkers := fun n =>
      match n with
      | Firefox => some (succeeding [recordA])
      | Chrome => some failing
      | Safari => none,
    removeDuplicates := false, folderQuery := "" }

/-- An engine whose Firefox adapter yields `recordA` and whose Chrome adapter yields
`recordB`, with the given configuration. -/
def twoFamilyEngine (removeDuplicates : Bool) (folderQuery : String) : engine :=
  { bookmarkers := fun n =>
      match n with
      | Firefox => some (succeeding [recordA])
      | Chrome => some (succeeding [recordB])
      | Safari => none,
    removeDuplicates := removeDuplicates, folderQuery := folderQuery }

/-- Collaborators of a machine on which every profile resolves, the Firefox adapter yields
`recordA`, the Safari adapter yields nothing and the Chrome file cannot be opened. -/
def sampleCollaborators : Collaborators :=
  { validateURL := fun s => Except.ok { Host := s },
    load := fun _ root => (root, some (GoError.errorString "open Bookmarks: no such file")),
    GetFirefoxBookmarkFile := fun _ _ => ("places.sqlite", none),
    GetChromeBookmarkFile := fun _ _ => ("Bookmarks", none),
    GetSafariBookmarkFile := ("Bookmarks.plist", none),
    NewFirefox := fun _ => succeeding [recordA],
    NewSafari := fun _ => succeeding [] }

/-- A validator that accepts the strings starting with `http://` and takes what follows
as the host. -/
def sampleValidateURL (s : String) : Except GoError url.URL :=
  if hasPrefix s "http://" then Except.ok { Host := String.mk (s.data.drop 7) }
  else Except.error (GoError.errorString "invalid URI")

/-- A url node without children. -/
def urlNode (name url : String) : chromeBookmarkEntry :=
  chromeBookmarkEntry.mk "" "" "" name "url" url none ""

/-- A folder node with the given children. -/
def folderNode (name : String) (children : List (Option chromeBookmarkEntry)) :
    chromeBookmarkEntry :=
  chromeBookmarkEntry.mk "" "" "" name "folder" "" (some children) ""

/-- A tree whose folder names are empty, `..`, a name with a separator, and `.`; one of
its url nodes holds a string that is not a URI. -/
def oddNamesTree : chromeBookmarkEntry :=
  folderNode ""
    [some (folderNode ".." [some (urlNode "a" "http://a.com")]),
     some (folderNode "x/y"
       [some (urlNode "b" "http://b.com"), some (urlNode "bad" "not a uri")]),
     some (folderNode "." [some (urlNode "c" "http://c.com")])]

/-- An empty folder node with the given name and the given (nil or empty) children. -/
def emptyFolder (name : String) (children : Option (List (Option chromeBookmarkEntry))) :
    chromeBookmarkEntry :=
  chromeBookmarkEntry.mk "" "" "" name "folder" "" children ""

/-- The root decoded from a file whose `roots` object has `bookmark_bar` and `other` but no
`synced` member: the pointer `Synced` stays nil. -/
def rootWithoutSynced : chromeBookmarkRoot :=
  { Checksum := "", Version := 1,
    Roots := { BookmarkBar := some (folderNode "" [some (urlNode "a" "http://a.com")]),
               Other := some (folderNode "" []),
               Synced := none } }

/-- The root decoded from a file in which the children array of the bookmark bar holds a
`null` entry. -/
def rootWithNullChild : chromeBookmarkRoot :=
  { Checksum := "", Version := 1,
    Roots := { BookmarkBar := some (folderNode "" [some (urlNode "a" "http://a.com"), none]),
               Other := some (folderNode "" []),
               Synced := some (folderNode "" []) } }

/-- A root with the three sub-trees present. -/
def fullRoot : chromeBookmarkRoot :=
  { Checksum := "", Version := 1,
    Roots := { BookmarkBar := some (folderNode "" [some (urlNode "a" "http://a.com")]),
               Other := some (folderNode "" [some (urlNode "c" "http://c.com")]),
               Synced := some (folderNode "" [some (urlNode "b" "http://b.com")]) } }

/-- The Chromium adapter as `NewChrome` builds it, for the file `Bookmarks`. -/
def sampleChrome : chromeBookmark :=
  { bookmarkRoot :=
      { Checksum := "", Roots := { BookmarkBar := none, Other := none, Synced := none },
        Version := 0 },
    bookmarkPath := "Bookmarks" }

/-- An option that sets the folder query and then fails. -/
def failingOption : OptionFn :=
  fun e => ({ e with folderQuery := "/half" }, some (GoError.errorString "profile not found"))

/-- The bookmark bar of a profile in which the folder `A` holds a folder named `..` that
holds one bookmark. -/
def dotDotTree : chromeBookmarkEntry :=
  folderNode ""
    [some (folderNode "A" [some (folderNode ".." [some (urlNode "a" "http://a.com")])])]

/-! ## The loop of `engine.Bookmarks` -/

theorem concatenation_nil (e : engine) : engine.concatenation e [] = [] := rfl

theorem concatenation_cons (e : engine) (n : bookmarkerName) (ns : List bookmarkerName) :
    engine.concatenation e (n :: ns) = engine.recordsOf e n ++ engine.concatenation e ns := by
  simp [engine.concatenation, List.flatMap]

/-- When every enabled adapter succeeds the loop ends with the accumulated collection
followed by the concatenation, and no error. -/
theorem collect_of_all_succeed (e : engine) (names : List bookmarkerName) :
    (∀ n ∈ names, ∀ bk, e.bookmarkers n = some bk → ∃ b, bk.Bookmarks = some (b, none)) →
    ∀ acc, engine.collect e names acc = some (acc ++ engine.concatenation e names, none) := by
  induction names with
  | nil => intro _ acc; simp [engine.collect, concatenation_nil]
  | cons n ns ih =>
    intro h acc
    have hns := ih (fun m hm => h m (List.mem_cons_of_mem _ hm))
    rw [concatenation_cons]
    cases hb : e.bookmarkers n with
    | none => simp [engine.collect, hb, hns, engine.recordsOf]
    | some bk =>
      obtain ⟨b, hbk⟩ := h n (List.mem_cons_self _ _) bk hb
      simp [engine.collect, hb, hbk, hns, engine.recordsOf]

/-- When the adapters before a failing one succeed, the loop stops at the failing one and
returns what it has accumulated, with the wrapped error. -/
theorem collect_of_first_failure (e : engine) (pre post : List bookmarkerName)
    (name : bookmarkerName) (bk : Bookmarker) (b : List Bookmark) (err : GoError)
    (hbk : e.bookmarkers name = some bk) (hfail : bk.Bookmarks = some (b, some err)) :
    (∀ n ∈ pre, ∀ bk, e.bookmarkers n = some bk → ∃ b, bk.Bookmarks = some (b, none)) →
    ∀ acc, engine.collect e (pre ++ name :: post) acc
      = some (acc ++ engine.concatenation e pre, some (GoError.loadFailed name err)) := by
  induction pre with
  | nil => intro _ acc; simp [engine.collect, hbk, hfail, concatenation_nil]
  | cons n ns ih =>
    intro h acc
    have hns := ih (fun m hm => h m (List.mem_cons_of_mem _ hm))
    rw [concatenation_cons]
    cases hb : e.bookmarkers n with
    | none => simp [engine.collect, hb, hns, engine.recordsOf]
    | some bk1 =>
      obtain ⟨b1, hbk1⟩ := h n (List.mem_cons_self _ _) bk1 hb
      simp [engine.collect, hb, hbk1, hns, engine.recordsOf]

/-- An error returned by the loop comes from the first enabled adapter that does not
succeed, all enabled adapters before it having succeeded. -/
theorem collect_error_split (e : engine) (names : List bookmarkerName) :
    ∀ acc bs err, engine.collect e names acc = some (bs, some err) →
    ∃ pre name post bk b inner, names = pre ++ name :: post ∧
      (∀ n ∈ pre, ∀ bk, e.bookmarkers n = some bk → ∃ b, bk.Bookmarks = some (b, none)) ∧
      e.bookmarkers name = some bk ∧ bk.Bookmarks = some (b, some inner) ∧
      err = GoError.loadFailed name inner := by
  induction names with
  | nil => intro acc bs err h; simp [engine.collect] at h
  | cons n ns ih =>
    intro acc bs err h
    cases hb : e.bookmarkers n with
    | none =>
      rw [engine.collect, hb] at h
      obtain ⟨pre, name, post, bk, b, inner, hs, hp, h1, h2, h3⟩ := ih _ _ _ h
      refine ⟨n :: pre, name, post, bk, b, inner, by simp [hs], ?_, h1, h2, h3⟩
      intro m hm bk1 hbk1
      rcases List.mem_cons.mp hm with rfl | hm
      · rw [hb] at hbk1; cases hbk1
      · exact hp m hm bk1 hbk1
    | some bk0 =>
      rw [engine.collect, hb] at h
      cases hr : bk0.Bookmarks with
      | none => simp [hr] at h
      | some r =>
        obtain ⟨b0, oerr⟩ := r
        cases oerr with
        | some inner =>
          simp only [hr, Option.some.injEq, Prod.mk.injEq] at h
          exact ⟨[], n, ns, bk0, b0, inner, rfl, by simp, hb, hr, h.2.symm⟩
        | none =>
          simp only [hr] at h
          obtain ⟨pre, name, post, bk, b, inner, hs, hp, h1, h2, h3⟩ := ih _ _ _ h
          refine ⟨n :: pre, name, post, bk, b, inner, by simp [hs], ?_, h1, h2, h3⟩
          intro m hm bk1 hbk1
          rcases List.mem_cons.mp hm with rfl | hm
          · rw [hb] at hbk1; cases hbk1; exact ⟨b0, hr⟩
          · exact hp m hm bk1 hbk1

/-- When no enabled adapter panics, a failing enabled adapter makes the loop return an
error. -/
theorem collect_error_of_failing (e : engine) (names : List bookmarkerName) :
    (∀ n ∈ names, ∀ bk, e.bookmarkers n = some bk → bk.Bookmarks ≠ none) →
    (∃ n ∈ names, ∃ bk b err, e.bookmarkers n = some bk ∧ bk.Bookmarks = some (b, some err)) →
    ∀ acc, ∃ bs err, engine.collect e names acc = some (bs, some err) := by
  induction names with
  | nil => intro _ h; simp at h
  | cons n ns ih =>
    intro hret hex acc
    have hret1 : ∀ m ∈ ns, ∀ bk, e.bookmarkers m = some bk → bk.Bookmarks ≠ none :=
      fun m hm => hret m (List.mem_cons_of_mem _ hm)
    obtain ⟨m, hm, bk, b, err, hmb, hmf⟩ := hex
    cases hb : e.bookmarkers n with
    | none =>
      rw [engine.collect, hb]
      rcases List.mem_cons.mp hm with rfl | hm1
      · rw [hb] at hmb; cases hmb
      · exact ih hret1 ⟨m, hm1, bk, b, err, hmb, hmf⟩ acc
    | some bk0 =>
      rw [engine.collect, hb]
      cases hr : bk0.Bookmarks with
      | none => exact absurd hr (hret n (List.mem_cons_self _ _) bk0 hb)
      | some r =>
        obtain ⟨b0, oerr⟩ := r
        cases oerr with
        | some inner => exact ⟨acc, GoError.loadFailed n inner, by simp [hr]⟩
        | none =>
          rcases List.mem_cons.mp hm with rfl | hm1
          · rw [hb] at hmb; cases hmb; rw [hr] at hmf; cases hmf
          · simpa [hr] using ih hret1 ⟨m, hm1, bk, b, err, hmb, hmf⟩ (acc ++ b0)

theorem concatenation_append (e : engine) (l1 l2 : List bookmarkerName) :
    engine.concatenation e (l1 ++ l2)
      = engine.concatenation e l1 ++ engine.concatenation e l2 := by
  simp [engine.concatenation]

theorem concatenation_disabled (e : engine) (l : List bookmarkerName)
    (h : ∀ n ∈ l, e.bookmarkers n = none) : engine.concatenation e l = [] := by
  induction l with
  | nil => rfl
  | cons n ns ih =>
    rw [concatenation_cons, ih (fun m hm => h m (List.mem_cons_of_mem _ hm))]
    simp [engine.recordsOf, h n (List.mem_cons_self _ _)]

theorem mem_concatenation (e : engine) (l : List bookmarkerName) (y : Bookmark)
    (hy : y ∈ engine.concatenation e l) : ∃ n ∈ l, y ∈ engine.recordsOf e n := by
  simpa [engine.concatenation] using hy

/-! ## Filtering and deduplication -/

theorem uniqFrom_sublist (l : List Bookmark) :
    ∀ seen, (uniqFrom seen l).Sublist l := by
  induction l with
  | nil => intro seen; simp [uniqFrom]
  | cons x xs ih =>
    intro seen
    by_cases hx : x.URI ∈ seen
    · simpa [uniqFrom, hx] using (ih seen).cons x
    · simpa [uniqFrom, hx] using (ih (x.URI :: seen)).cons₂ x

theorem uniqFrom_not_seen (l : List Bookmark) :
    ∀ seen, ∀ x ∈ uniqFrom seen l, x.URI ∉ seen := by
  induction l with
  | nil => intro seen x hx; simp [uniqFrom] at hx
  | cons y ys ih =>
    intro seen x hx
    by_cases hy : y.URI ∈ seen
    · rw [uniqFrom, if_pos hy] at hx
      exact ih seen x hx
    · rw [uniqFrom, if_neg hy] at hx
      rcases List.mem_cons.mp hx with rfl | hx1
      · exact hy
      · exact fun h => ih (y.URI :: seen) x hx1 (List.mem_cons_of_mem _ h)

theorem uniqFrom_nodup (l : List Bookmark) :
    ∀ seen, ((uniqFrom seen l).map Bookmark.URI).Nodup := by
  induction l with
  | nil => intro seen; simp [uniqFrom]
  | cons y ys ih =>
    intro seen
    by_cases hy : y.URI ∈ seen
    · rw [uniqFrom, if_pos hy]; exact ih seen
    · rw [uniqFrom, if_neg hy, List.map_cons, List.nodup_cons]
      refine ⟨?_, ih _⟩
      intro hmem
      obtain ⟨x, hx, hxu⟩ := List.mem_map.mp hmem
      exact uniqFrom_not_seen ys (y.URI :: seen) x hx (by simp [hxu])

/-- The Record that deduplication keeps for a uri is the first Record with that uri. -/
theorem uniqFrom_find (l : List Bookmark) (u : String) :
    ∀ seen, u ∉ seen →
      (uniqFrom seen l).find? (fun b => decide (b.URI = u))
        = l.find? (fun b => decide (b.URI = u)) := by
  induction l with
  | nil => intro seen _; simp [uniqFrom]
  | cons y ys ih =>
    intro seen hu
    by_cases hy : y.URI ∈ seen
    · have hne : ¬ y.URI = u := fun h => hu (h ▸ hy)
      rw [uniqFrom, if_pos hy, List.find?_cons_of_neg _ (by simpa using hne)]
      exact ih seen hu
    · rw [uniqFrom, if_neg hy]
      by_cases hyu : y.URI = u
      · rw [List.find?_cons_of_pos _ (by simpa using hyu),
          List.find?_cons_of_pos _ (by simpa using hyu)]
      · rw [List.find?_cons_of_neg _ (by simpa using hyu),
          List.find?_cons_of_neg _ (by simpa using hyu)]
        exact ih _ (by
          intro h
          rcases List.mem_cons.mp h with h1 | h1
          · exact hyu h1.symm
          · exact hu h1)

/-- Deduplicating a collection whose Records all carry the uri of the first one leaves
that first Record only. -/
theorem uniqFrom_all_same (x : Bookmark) (l : List Bookmark) (seen : List String)
    (hx : x.URI ∈ seen) (h : ∀ y ∈ l, y.URI = x.URI) : uniqFrom seen l = [] := by
  induction l with
  | nil => rfl
  | cons y ys ih =>
    have hy : y.URI ∈ seen := by rw [h y (List.mem_cons_self _ _)]; exact hx
    rw [uniqFrom, if_pos hy]
    exact ih (fun z hz => h z (List.mem_cons_of_mem _ hz))

/-! ## `filepath.Clean` and `filepath.Join` -/

theorem Clean.scan_nil (rooted : Bool) (out : List Char) (dotdot : Nat) :
    Clean.scan rooted [] out dotdot = out := by
  rw [Clean.scan.eq_def]

theorem Clean.scan_cons (rooted : Bool) (c : Char) (rest out : List Char) (dotdot : Nat) :
    Clean.scan rooted (c :: rest) out dotdot =
      if c = '/' then Clean.scan rooted rest out dotdot
      else if c = '.' ∧ (rest = [] ∨ rest.head? = some '/') then
        Clean.scan rooted rest out dotdot
      else if c = '.' ∧ rest.head? = some '.' ∧ (rest.tail = [] ∨ rest.tail.head? = some '/') then
        match rest with
        | [] => out
        | _ :: rest2 =>
          if dotdot < out.length then
            Clean.scan rooted rest2
              (out.take (Clean.backtrack out dotdot (out.length - 1))) dotdot
          else if rooted = false then
            Clean.scan rooted rest2
              ((if 0 < out.length then out ++ ['/'] else out) ++ ['.', '.'])
              ((if 0 < out.length then out ++ ['/'] else out) ++ ['.', '.']).length
          else Clean.scan rooted rest2 out dotdot
      else
        Clean.copy rooted rest (Clean.addSlash rooted out ++ [c]) dotdot := by
  rw [Clean.scan.eq_def]

theorem Clean.copy_nil (rooted : Bool) (out : List Char) (dotdot : Nat) :
    Clean.copy rooted [] out dotdot = out := by
  rw [Clean.copy.eq_def]

theorem Clean.copy_cons (rooted : Bool) (c : Char) (rest out : List Char) (dotdot : Nat) :
    Clean.copy rooted (c :: rest) out dotdot =
      if c = '/' then Clean.scan rooted rest out dotdot
      else Clean.copy rooted rest (out ++ [c]) dotdot := by
  rw [Clean.copy.eq_def]

theorem Clean.backtrack_ge (buf : List Char) (w : Nat) (hw : 1 ≤ w) :
    1 ≤ Clean.backtrack buf 1 w := by
  induction w with
  | zero => omega
  | succ k ih =>
    rw [Clean.backtrack]
    split
    · rename_i h
      exact ih (by omega)
    · omega

theorem Clean.addSlash_rooted (o : List Char) :
    ∃ o2, Clean.addSlash true ('/' :: o) = '/' :: o2 := by
  unfold Clean.addSlash
  split
  · exact ⟨o ++ ['/'], rfl⟩
  · exact ⟨o, rfl⟩

theorem Clean.scan_copy_rooted (n : Nat) :
    ∀ path : List Char, path.length ≤ n → ∀ o : List Char,
      (∃ o2, Clean.scan true path ('/' :: o) 1 = '/' :: o2) ∧
      (∃ o2, Clean.copy true path ('/' :: o) 1 = '/' :: o2) := by
  induction n with
  | zero =>
    intro path hp o
    have : path = [] := List.length_eq_zero.mp (by omega)
    subst this
    exact ⟨⟨o, Clean.scan_nil _ _ _⟩, ⟨o, Clean.copy_nil _ _ _⟩⟩
  | succ k ih =>
    intro path hp o
    cases path with
    | nil => exact ⟨⟨o, Clean.scan_nil _ _ _⟩, ⟨o, Clean.copy_nil _ _ _⟩⟩
    | cons c rest =>
      have hrest : rest.length ≤ k := by simpa using hp
      constructor
      · rw [Clean.scan_cons]
        split
        · exact (ih rest hrest o).1
        · split
          · exact (ih rest hrest o).1
          · split
            · cases rest with
              | nil => exact ⟨o, rfl⟩
              | cons d rest2 =>
                have hrest2 : rest2.length ≤ k := by simp at hrest; omega
                simp only []
                split
                · rename_i hlt
                  have hge := Clean.backtrack_ge ('/' :: o) (('/' :: o).length - 1)
                    (by simp at hlt ⊢; omega)
                  obtain ⟨m, hm⟩ := Nat.exists_eq_add_of_le hge
                  rw [hm, Nat.add_comm, List.take_succ_cons]
                  exact (ih rest2 hrest2 _).1
                · simp only [Bool.true_eq_false, if_false]
                  exact (ih rest2 hrest2 o).1
            · obtain ⟨o2, h2⟩ := Clean.addSlash_rooted o
              rw [h2, List.cons_append]
              exact (ih rest hrest _).2
      · rw [Clean.copy_cons]
        split
        · exact (ih rest hrest o).1
        · rw [List.cons_append]
          exact (ih rest hrest _).2

/-- Copying a separator-free element appends it whole. -/
theorem Clean.copy_noslash (rooted : Bool) (r : List Char) (hr : '/' ∉ r) :
    ∀ (out : List Char) (dotdot : Nat), Clean.copy rooted r out dotdot = out ++ r := by
  induction r with
  | nil => intro out dotdot; simp [Clean.copy_nil]
  | cons c rest ih =>
    intro out dotdot
    have hc : c ≠ '/' := fun h => hr (by simp [h])
    have hrest : '/' ∉ rest := fun h => hr (List.mem_cons_of_mem _ h)
    rw [Clean.copy_cons, if_neg hc, ih hrest]
    simp

theorem Clean.dot_cond_append (g rest : List Char) :
    (g ++ '/' :: rest = [] ∨ (g ++ '/' :: rest).head? = some '/')
      ↔ (g = [] ∨ g.head? = some '/') := by
  cases g <;> simp

theorem Clean.dotdot_cond_append (g rest : List Char) :
    ((g ++ '/' :: rest).head? = some '.'
        ∧ ((g ++ '/' :: rest).tail = [] ∨ (g ++ '/' :: rest).tail.head? = some '/'))
      ↔ (g.head? = some '.' ∧ (g.tail = [] ∨ g.tail.head? = some '/')) := by
  rcases g with _ | ⟨d, _ | ⟨d2, g3⟩⟩ <;> simp

/-- In a rooted path, what `filepath.Clean` does with the text before a separator does
not depend on what follows the separator. -/
theorem Clean.scan_copy_append (n : Nat) :
    ∀ g : List Char, g.length ≤ n → ∀ (rest out : List Char),
      Clean.scan true (g ++ '/' :: rest) out 1
        = Clean.scan true rest (Clean.scan true g out 1) 1 ∧
      Clean.copy true (g ++ '/' :: rest) out 1
        = Clean.scan true rest (Clean.copy true g out 1) 1 := by
  induction n with
  | zero =>
    intro g hg rest out
    have : g = [] := List.length_eq_zero.mp (by omega)
    subst this
    simp [Clean.scan_nil, Clean.copy_nil, Clean.scan_cons, Clean.copy_cons]
  | succ k ih =>
    intro g hg rest out
    cases g with
    | nil => simp [Clean.scan_nil, Clean.copy_nil, Clean.scan_cons, Clean.copy_cons]
    | cons c g1 =>
      have hg1 : g1.length ≤ k := by simpa using hg
      constructor
      · rw [List.cons_append, Clean.scan_cons, Clean.scan_cons true c g1]
        simp only [Clean.dot_cond_append, Clean.dotdot_cond_append]
        by_cases h1 : c = '/'
        · rw [if_pos h1, if_pos h1]; exact (ih g1 hg1 rest out).1
        · rw [if_neg h1, if_neg h1]
          by_cases h2 : c = '.' ∧ (g1 = [] ∨ g1.head? = some '/')
          · rw [if_pos h2, if_pos h2]; exact (ih g1 hg1 rest out).1
          · rw [if_neg h2, if_neg h2]
            by_cases h3 : c = '.' ∧ g1.head? = some '.'
                ∧ (g1.tail = [] ∨ g1.tail.head? = some '/')
            · rw [if_pos h3, if_pos h3]
              cases g1 with
              | nil => simp at h3
              | cons d g2 =>
                have hg2 : g2.length ≤ k := by simp at hg1; omega
                simp only [List.cons_append]
                by_cases h4 : 1 < out.length
                · rw [if_pos h4, if_pos h4]; exact (ih g2 hg2 rest _).1
                · rw [if_neg h4, if_neg h4]
                  simp only [Bool.true_eq_false, if_false]
                  exact (ih g2 hg2 rest _).1
            · rw [if_neg h3, if_neg h3]; exact (ih g1 hg1 rest _).2
      · rw [List.cons_append, Clean.copy_cons, Clean.copy_cons true c g1]
        split_ifs
        · exact (ih g1 hg1 rest out).1
        · exact (ih g1 hg1 rest _).2

theorem hasPrefix_slash (s : String) :
    hasPrefix s "/" = true ↔ ∃ t, s.data = '/' :: t := by
  unfold hasPrefix
  show List.isPrefixOf ['/'] s.data = true ↔ _
  cases h : s.data with
  | nil => simp [List.isPrefixOf]
  | cons c t =>
    simp only [List.isPrefixOf, Bool.and_true, beq_iff_eq, List.cons.injEq, exists_and_left,
      exists_eq', and_true]
    exact eq_comm

/-- Cleaning a rooted path gives a rooted path. -/
theorem Clean_rooted (path : String) (h : hasPrefix path "/" = true) :
    hasPrefix (Clean path) "/" = true := by
  obtain ⟨t, ht⟩ := (hasPrefix_slash path).mp h
  have hne : path ≠ "" := by
    intro h0
    rw [h0] at ht
    cases ht
  obtain ⟨o2, ho2⟩ := (Clean.scan_copy_rooted t.length t (Nat.le_refl _) []).1
  rw [hasPrefix_slash]
  refine ⟨o2, ?_⟩
  simp [Clean, hne, ht, ho2]

/-- Joining a name to a rooted folder path gives a rooted path. -/
theorem Join_rooted (folder name : String) (h : hasPrefix folder "/" = true) :
    hasPrefix (Join folder name) "/" = true := by
  obtain ⟨t, ht⟩ := (hasPrefix_slash folder).mp h
  have hne : folder ≠ "" := by
    intro h0
    rw [h0] at ht
    cases ht
  rw [Join, if_pos hne]
  apply Clean_rooted
  rw [hasPrefix_slash]
  exact ⟨t ++ "/".data ++ name.data, by simp [String.data_append, ht]⟩

/-- A plain segment (no separator, not `.` or `..`) read by the main loop of
`filepath.Clean` on a rooted path is appended, after a separator when the output is more
than the root. -/
theorem Clean.scan_segment (n out : List Char) (hne : n ≠ []) (hslash : '/' ∉ n)
    (hdot : n ≠ ['.']) (hdotdot : n ≠ ['.', '.']) :
    Clean.scan true n out 1 = Clean.addSlash true out ++ n := by
  cases n with
  | nil => exact absurd rfl hne
  | cons c r =>
    have hc : c ≠ '/' := fun h => hslash (by simp [h])
    have hr : '/' ∉ r := fun h => hslash (List.mem_cons_of_mem _ h)
    have h2 : ¬ (c = '.' ∧ (r = [] ∨ r.head? = some '/')) := by
      rintro ⟨h21, h22 | h22⟩
      · exact hdot (by rw [h21, h22])
      · exact hr (List.mem_of_mem_head? h22)
    have h3 : ¬ (c = '.' ∧ r.head? = some '.' ∧ (r.tail = [] ∨ r.tail.head? = some '/')) := by
      rintro ⟨h31, h32, h33⟩
      cases r with
      | nil => simp at h32
      | cons d r2 =>
        simp only [List.head?_cons, Option.some.injEq, List.tail_cons] at h32 h33
        rcases h33 with h33 | h33
        · exact hdotdot (by rw [h31, h32, h33])
        · exact hr (List.mem_cons_of_mem _ (List.mem_of_mem_head? h33))
    rw [Clean.scan_cons, if_neg hc, if_neg h2, if_neg h3, Clean.copy_noslash true r hr]
    simp

/-- On a cleaned rooted folder path `f` and a plain segment `n`, `filepath.Join` appends
`n` as one new path segment. -/
theorem Join_append_segment (f n : String) (hroot : hasPrefix f "/" = true)
    (hclean : Clean f = f) (hne : n ≠ "") (hslash : '/' ∉ n.data) (hdot : n ≠ ".")
    (hdotdot : n ≠ "..") :
    Join f n = if f = "/" then "/" ++ n else f ++ "/" ++ n := by
  obtain ⟨g, hg⟩ := (hasPrefix_slash f).mp hroot
  have hfne : f ≠ "" := by
    intro h0
    rw [h0] at hg
    cases hg
  obtain ⟨o2, ho2⟩ := (Clean.scan_copy_rooted g.length g (Nat.le_refl _) []).1
  have hscan : Clean.scan true g ['/'] 1 = f.data := by
    have h1 : Clean f = String.mk ('/' :: o2) := by simp [Clean, hfne, hg, ho2]
    rw [hclean] at h1
    rw [ho2, h1]
  have hjoin : (f ++ "/" ++ n).data = '/' :: (g ++ '/' :: n.data) := by
    simp [String.data_append, hg]
  have hjne : f ++ "/" ++ n ≠ "" := by
    intro h0
    rw [h0] at hjoin
    cases hjoin
  have hseg : Clean.scan true (g ++ '/' :: n.data) ['/'] 1
      = Clean.addSlash true f.data ++ n.data := by
    rw [(Clean.scan_copy_append g.length g (Nat.le_refl _) n.data ['/']).1, hscan]
    apply Clean.scan_segment _ _ _ hslash
    · intro h0; exact hdot (String.ext h0)
    · intro h0; exact hdotdot (String.ext h0)
    · intro h0; exact hne (String.ext h0)
  have hclean2 : Clean (f ++ "/" ++ n) = String.mk (Clean.addSlash true f.data ++ n.data) := by
    have hlen : (Clean.addSlash true f.data ++ n.data).length ≠ 0 := by
      have hpos : 0 < n.data.length :=
        List.length_pos.mpr (fun h0 => hne (String.ext h0))
      rw [List.length_append]
      omega
    simp only [Clean, if_neg hjne, hjoin, List.head?_cons, if_true, List.tail_cons, hseg,
      if_neg hlen]
  rw [Join, if_pos hfne, hclean2]
  by_cases hf : f = "/"
  · rw [if_pos hf]
    subst hf
    apply String.ext
    simp [Clean.addSlash]
  · rw [if_neg hf]
    have hlen1 : f.data.length ≠ 1 := by
      intro h1
      apply hf
      apply String.ext
      rw [hg] at h1 ⊢
      have : g = [] := List.length_eq_zero.mp (by simpa using h1)
      rw [this]
    have hlen2 : f.length ≠ 1 := hlen1
    apply String.ext
    simp [Clean.addSlash, hlen2, String.data_append]

/-! ## The traversal `convertToBookmarks` -/

theorem convertToBookmarks_mk (validateURL : String → Except GoError url.URL)
    (da guid id name type url : String)
    (children : Option (List (Option chromeBookmarkEntry))) (dm folder : String) :
    chromeBookmarkEntry.convertToBookmarks validateURL
        (chromeBookmarkEntry.mk da guid id name type url children dm) folder
      = if type = "folder" then
          if children.isNone then some []
          else
            chromeBookmarkEntry.rangeChildren validateURL children
              (if name ≠ "" then Join folder name else folder)
        else if type = "url" then
          match validateURL url with
          | .error _ => some []
          | .ok u =>
            (chromeBookmarkEntry.rangeChildren validateURL children folder).map
              (fun rest =>
                [{ BookmarkerName := Chrome, Folder := folder, Title := name, URI := url,
                   Domain := u.Host }] ++ rest)
        else chromeBookmarkEntry.rangeChildren validateURL children folder := by
  rw [chromeBookmarkEntry.convertToBookmarks.eq_def]

theorem rangeChildren_none (validateURL : String → Except GoError url.URL) (folder : String) :
    chromeBookmarkEntry.rangeChildren validateURL none folder = some [] := by
  rw [chromeBookmarkEntry.rangeChildren.eq_def]

theorem rangeChildren_some (validateURL : String → Except GoError url.URL)
    (es : List (Option chromeBookmarkEntry)) (folder : String) :
    chromeBookmarkEntry.rangeChildren validateURL (some es) folder
      = chromeBookmarkEntry.rangeEntries validateURL es folder := by
  rw [chromeBookmarkEntry.rangeChildren.eq_def]

theorem rangeEntries_nil (validateURL : String → Except GoError url.URL) (folder : String) :
    chromeBookmarkEntry.rangeEntries validateURL [] folder = some [] := by
  rw [chromeBookmarkEntry.rangeEntries.eq_def]

theorem rangeEntries_cons (validateURL : String → Except GoError url.URL)
    (e : Option chromeBookmarkEntry) (es : List (Option chromeBookmarkEntry))
    (folder : String) :
    chromeBookmarkEntry.rangeEntries validateURL (e :: es) folder
      = match chromeBookmarkEntry.convertPtr validateURL e folder with
        | none => none
        | some b =>
          (chromeBookmarkEntry.rangeEntries validateURL es folder).map (fun rest => b ++ rest) := by
  rw [chromeBookmarkEntry.rangeEntries.eq_def]

theorem convertPtr_none (validateURL : String → Except GoError url.URL) (folder : String) :
    chromeBookmarkEntry.convertPtr validateURL none folder = none := by
  rw [chromeBookmarkEntry.convertPtr.eq_def]

theorem convertPtr_some (validateURL : String → Except GoError url.URL)
    (entry : chromeBookmarkEntry) (folder : String) :
    chromeBookmarkEntry.convertPtr validateURL (some entry) folder
      = chromeBookmarkEntry.convertToBookmarks validateURL entry folder := by
  rw [chromeBookmarkEntry.convertPtr.eq_def]

mutual
/-- Every Record that the traversal produces from a rooted folder path has a validated
uri and a rooted folder. -/
theorem convertToBookmarks_valid (validateURL : String → Except GoError url.URL) :
    ∀ (entry : chromeBookmarkEntry) (folder : String) (bs : List Bookmark),
      hasPrefix folder "/" = true →
      chromeBookmarkEntry.convertToBookmarks validateURL entry folder = some bs →
      ∀ b ∈ bs, (∃ u, validateURL b.URI = Except.ok u) ∧ hasPrefix b.Folder "/" = true
  | .mk da guid id name type url children dm, folder, bs, hf, h => by
    rw [convertToBookmarks_mk] at h
    by_cases ht : type = "folder"
    · rw [if_pos ht] at h
      by_cases hc : children.isNone = true
      · rw [if_pos hc] at h
        cases h
        intro b hb
        cases hb
      · rw [if_neg hc] at h
        refine rangeChildren_valid validateURL children _ bs ?_ h
        by_cases hn : name = ""
        · simpa [hn] using hf
        · simpa [hn] using Join_rooted folder name hf
    · rw [if_neg ht] at h
      by_cases hu : type = "url"
      · rw [if_pos hu] at h
        cases hv : validateURL url with
        | error err =>
          rw [hv] at h
          cases h
          intro b hb
          cases hb
        | ok u =>
          rw [hv] at h
          cases hr : chromeBookmarkEntry.rangeChildren validateURL children folder with
          | none => rw [hr] at h; cases h
          | some rest =>
            rw [hr] at h
            cases h
            intro b hb
            rcases List.mem_append.mp hb with hb1 | hb1
            · rw [List.mem_singleton] at hb1
              subst hb1
              exact ⟨⟨u, hv⟩, hf⟩
            · exact rangeChildren_valid validateURL children folder rest hf hr b hb1
      · rw [if_neg hu] at h
        exact rangeChildren_valid validateURL children folder bs hf h
theorem rangeChildren_valid (validateURL : String → Except GoError url.URL) :
    ∀ (children : Option (List (Option chromeBookmarkEntry))) (folder : String)
      (bs : List Bookmark),
      hasPrefix folder "/" = true →
      chromeBookmarkEntry.rangeChildren validateURL children folder = some bs →
      ∀ b ∈ bs, (∃ u, validateURL b.URI = Except.ok u) ∧ hasPrefix b.Folder "/" = true
  | none, folder, bs, _, h => by
    rw [rangeChildren_none] at h
    cases h
    intro b hb
    cases hb
  | some es, folder, bs, hf, h => by
    rw [rangeChildren_some] at h
    exact rangeEntries_valid validateURL es folder bs hf h
theorem rangeEntries_valid (validateURL : String → Except GoError url.URL) :
    ∀ (es : List (Option chromeBookmarkEntry)) (folder : String) (bs : List Bookmark),
      hasPrefix folder "/" = true →
      chromeBookmarkEntry.rangeEntries validateURL es folder = some bs →
      ∀ b ∈ bs, (∃ u, validateURL b.URI = Except.ok u) ∧ hasPrefix b.Folder "/" = true
  | [], folder, bs, _, h => by
    rw [rangeEntries_nil] at h
    cases h
    intro b hb
    cases hb
  | e :: es, folder, bs, hf, h => by
    rw [rangeEntries_cons] at h
    cases hp : chromeBookmarkEntry.convertPtr validateURL e folder with
    | none => rw [hp] at h; cases h
    | some first =>
      rw [hp] at h
      cases hr : chromeBookmarkEntry.rangeEntries validateURL es folder with
      | none => rw [hr] at h; cases h
      | some rest =>
        rw [hr] at h
        cases h
        intro b hb
        rcases List.mem_append.mp hb with hb1 | hb1
        · exact convertPtr_valid validateURL e folder first hf hp b hb1
        · exact rangeEntries_valid validateURL es folder rest hf hr b hb1
theorem convertPtr_valid (validateURL : String → Except GoError url.URL) :
    ∀ (e : Option chromeBookmarkEntry) (folder : String) (bs : List Bookmark),
      hasPrefix folder "/" = true →
      chromeBookmarkEntry.convertPtr validateURL e folder = some bs →
      ∀ b ∈ bs, (∃ u, validateURL b.URI = Except.ok u) ∧ hasPrefix b.Folder "/" = true
  | none, folder, bs, _, h => by
    rw [convertPtr_none] at h
    cases h
  | some entry, folder, bs, hf, h => by
    rw [convertPtr_some] at h
    exact convertToBookmarks_valid validateURL entry folder bs hf h
end

mutual
/-- On a tree without nil pointers the traversal returns a collection. -/
theorem convertToBookmarks_returns (validateURL : String → Except GoError url.URL) :
    ∀ (entry : chromeBookmarkEntry) (folder : String),
      chromeBookmarkEntry.nilFree entry = true →
      ∃ bs, chromeBookmarkEntry.convertToBookmarks validateURL entry folder = some bs
  | .mk da guid id name type rawurl children dm, folder, h => by
    rw [chromeBookmarkEntry.nilFree.eq_def] at h
    simp only at h
    rw [convertToBookmarks_mk]
    by_cases ht : type = "folder"
    · rw [if_pos ht]
      by_cases hc : children.isNone = true
      · rw [if_pos hc]; exact ⟨[], rfl⟩
      · rw [if_neg hc]; exact rangeChildren_returns validateURL children _ h
    · rw [if_neg ht]
      by_cases hu : type = "url"
      · rw [if_pos hu]
        cases validateURL rawurl with
        | error err => exact ⟨[], rfl⟩
        | ok u =>
          obtain ⟨rest, hrest⟩ := rangeChildren_returns validateURL children folder h
          simp only [hrest]
          exact ⟨_, rfl⟩
      · rw [if_neg hu]; exact rangeChildren_returns validateURL children folder h
theorem rangeChildren_returns (validateURL : String → Except GoError url.URL) :
    ∀ (children : Option (List (Option chromeBookmarkEntry))) (folder : String),
      chromeBookmarkEntry.nilFreeChildren children = true →
      ∃ bs, chromeBookmarkEntry.rangeChildren validateURL children folder = some bs
  | none, folder, _ => ⟨[], rangeChildren_none validateURL folder⟩
  | some es, folder, h => by
    rw [chromeBookmarkEntry.nilFreeChildren.eq_def] at h
    rw [rangeChildren_some]
    exact rangeEntries_returns validateURL es folder h
theorem rangeEntries_returns (validateURL : String → Except GoError url.URL) :
    ∀ (es : List (Option chromeBookmarkEntry)) (folder : String),
      chromeBookmarkEntry.nilFreeEntries es = true →
      ∃ bs, chromeBookmarkEntry.rangeEntries validateURL es folder = some bs
  | [], folder, _ => ⟨[], rangeEntries_nil validateURL folder⟩
  | e :: es, folder, h => by
    rw [chromeBookmarkEntry.nilFreeEntries.eq_def] at h
    simp only [Bool.and_eq_true] at h
    obtain ⟨first, hfirst⟩ := convertPtr_returns validateURL e folder h.1
    obtain ⟨rest, hrest⟩ := rangeEntries_returns validateURL es folder h.2
    rw [rangeEntries_cons, hfirst]
    simp only [hrest]
    exact ⟨_, rfl⟩
theorem convertPtr_returns (validateURL : String → Except GoError url.URL) :
    ∀ (e : Option chromeBookmarkEntry) (folder : String),
      chromeBookmarkEntry.nilFreePtr e = true →
      ∃ bs, chromeBookmarkEntry.convertPtr validateURL e folder = some bs
  | none, folder, h => by
    rw [chromeBookmarkEntry.nilFreePtr.eq_def] at h
    cases h
  | some entry, folder, h => by
    rw [chromeBookmarkEntry.nilFreePtr.eq_def] at h
    rw [convertPtr_some]
    exact convertToBookmarks_returns validateURL entry folder h
end

/-- The loop over the children returns the concatenation, in child order, of the
conversions of the children, and panics when one of them does. -/
theorem rangeEntries_eq_mapM (validateURL : String → Except GoError url.URL)
    (es : List (Option chromeBookmarkEntry)) (folder : String) :
    chromeBookmarkEntry.rangeEntries validateURL es folder
      = (es.mapM (fun e => chromeBookmarkEntry.convertPtr validateURL e folder)).map
          List.flatten := by
  induction es with
  | nil => rw [rangeEntries_nil, List.mapM_nil]; rfl
  | cons e es ih =>
    rw [rangeEntries_cons, List.mapM_cons, ih]
    cases chromeBookmarkEntry.convertPtr validateURL e folder with
    | none => rfl
    | some b =>
      cases List.mapM (fun e => chromeBookmarkEntry.convertPtr validateURL e folder) es with
      | none => rfl
      | some bs => rfl

/-- The Records of a child are among the Records of the loop over the children. -/
theorem rangeEntries_mem (validateURL : String → Except GoError url.URL)
    (es : List (Option chromeBookmarkEntry)) (folder : String) :
    ∀ bs, chromeBookmarkEntry.rangeEntries validateURL es folder = some bs →
      ∀ e ∈ es, ∃ be, chromeBookmarkEntry.convertPtr validateURL e folder = some be ∧
        ∀ b ∈ be, b ∈ bs := by
  induction es with
  | nil => intro bs _ e he; cases he
  | cons x xs ih =>
    intro bs h e he
    rw [rangeEntries_cons] at h
    cases hp : chromeBookmarkEntry.convertPtr validateURL x folder with
    | none => rw [hp] at h; cases h
    | some first =>
      rw [hp] at h
      cases hr : chromeBookmarkEntry.rangeEntries validateURL xs folder with
      | none => rw [hr] at h; cases h
      | some rest =>
        rw [hr] at h
        cases h
        rcases List.mem_cons.mp he with rfl | he1
        · exact ⟨first, hp, fun b hb => List.mem_append_left _ hb⟩
        · obtain ⟨be, hbe, hsub⟩ := ih rest hr e he1
          exact ⟨be, hbe, fun b hb => List.mem_append_right _ (hsub b hb)⟩

/-! ## The builder `New` -/

theorem setBookmarker_comm (e : engine) (n m : bookmarkerName) (x y : Bookmarker)
    (hnm : n ≠ m) :
    (e.setBookmarker n x).setBookmarker m y = (e.setBookmarker m y).setBookmarker n x := by
  simp only [engine.setBookmarker, engine.mk.injEq, and_true]
  funext k
  by_cases hk : k = m
  · subst hk
    simp [Ne.symm hnm]
  · simp [hk]

/-- One step of the loop of `New` on an option built by engine.go: the option fails without
changing the engine, or it makes its change and the loop goes on. -/
theorem New.apply_cons (w : Collaborators) (c : OptionCall) (opts : List (Option OptionFn))
    (e : engine) :
    New.apply (c.toOption w :: opts) e
      = match c.failure w with
        | some err => (e, some err)
        | none => New.apply opts (c.effect w e) := by
  cases c with
  | firefox pp pn =>
    rcases h : w.GetFirefoxBookmarkFile pp pn with ⟨path, _ | err⟩ <;>
      simp [OptionCall.toOption, OptionCall.failure, OptionCall.effect, New.apply,
        OptionFirefox, h]
  | chrome pp pn =>
    rcases h : w.GetChromeBookmarkFile pp pn with ⟨path, _ | err⟩ <;>
      simp [OptionCall.toOption, OptionCall.failure, OptionCall.effect, New.apply,
        OptionChrome, h]
  | safari =>
    rcases h : w.GetSafariBookmarkFile with ⟨path, _ | err⟩ <;>
      simp [OptionCall.toOption, OptionCall.failure, OptionCall.effect, New.apply,
        OptionSafari, h]
  | removeDuplicates =>
    simp [OptionCall.toOption, OptionCall.failure, OptionCall.effect, New.apply,
      OptionRemoveDuplicates]
  | filterByFolder q =>
    simp [OptionCall.toOption, OptionCall.failure, OptionCall.effect, New.apply,
      OptionFilterByFolder]
  | nil => simp [OptionCall.toOption, OptionCall.failure, OptionCall.effect, New.apply]

/-- The changes of two options commute, provided they do not enable the same family and
do not set two different folder queries. -/
theorem OptionCall.effect_comm (w : Collaborators) (a b : OptionCall) (e : engine)
    (hfam : ∀ n, a.family = some n → b.family ≠ some n)
    (hq : ∀ qa qb, a.query = some qa → b.query = some qb → qa = qb) :
    b.effect w (a.effect w e) = a.effect w (b.effect w e) := by
  cases a <;> cases b <;>
    simp only [OptionCall.family, OptionCall.query, OptionCall.effect, ne_eq,
      not_true_eq_false, reduceCtorEq, not_false_eq_true, Option.some.injEq,
      forall_eq', implies_true, false_implies] at hfam hq ⊢ <;>
    first
      | rfl
      | (apply setBookmarker_comm; decide)
      | (rw [hq _ _ rfl rfl])

/-- Reordering the options does not change what the loop of `New` returns, when the options
all succeed, enable each family at most once and agree on the folder query. -/
theorem New.apply_perm (w : Collaborators) (l1 l2 : List OptionCall) (hp : l1.Perm l2) :
    (l1.filterMap OptionCall.family).Nodup →
    (∀ qa ∈ l1.filterMap OptionCall.query, ∀ qb ∈ l1.filterMap OptionCall.query, qa = qb) →
    ∀ e, (New.apply (l1.map (OptionCall.toOption w)) e).2 = none →
      New.apply (l1.map (OptionCall.toOption w)) e
        = New.apply (l2.map (OptionCall.toOption w)) e := by
  induction hp with
  | nil => intro _ _ e _; rfl
  | @cons x l1 l2 _ ih =>
    intro hnd hq e hok
    simp only [List.map_cons, New.apply_cons] at hok ⊢
    have hnd1 : (l1.filterMap OptionCall.family).Nodup := by
      cases hx : x.family with
      | none => simpa [List.filterMap_cons, hx] using hnd
      | some n =>
        rw [List.filterMap_cons, hx] at hnd
        exact (List.nodup_cons.mp hnd).2
    have hq1 : ∀ qa ∈ l1.filterMap OptionCall.query, ∀ qb ∈ l1.filterMap OptionCall.query,
        qa = qb := by
      intro qa ha qb hb
      have hsub : ∀ q ∈ l1.filterMap OptionCall.query,
          q ∈ (x :: l1).filterMap OptionCall.query := by
        intro q hq0
        rw [List.mem_filterMap] at hq0 ⊢
        obtain ⟨c, hc, hcq⟩ := hq0
        exact ⟨c, List.mem_cons_of_mem _ hc, hcq⟩
      exact hq qa (hsub qa ha) qb (hsub qb hb)
    cases hf : x.failure w with
    | some err => rfl
    | none =>
      simp only [hf] at hok ⊢
      exact ih hnd1 hq1 _ hok
  | swap x y l =>
    intro hnd hq e hok
    simp only [List.map_cons, New.apply_cons] at hok ⊢
    cases hfy : y.failure w with
    | some err => simp [hfy] at hok
    | none =>
      simp only [hfy] at hok ⊢
      cases hfx : x.failure w with
      | some err => simp [hfx] at hok
      | none =>
        simp only [hfx] at hok ⊢
        have hcomm : x.effect w (y.effect w e) = y.effect w (x.effect w e) := by
          apply OptionCall.effect_comm
          · intro n hy hx
            simp [List.filterMap_cons, hy, hx] at hnd
          · intro qa qb hy hx
            apply hq
            · rw [List.mem_filterMap]
              exact ⟨y, by simp, hy⟩
            · rw [List.mem_filterMap]
              exact ⟨x, by simp, hx⟩
        rw [hcomm]
  | @trans l1 l2 l3 h12 _ ih1 ih2 =>
    intro hnd hq e hok
    have e12 := ih1 hnd hq e hok
    have hnd2 : (l2.filterMap OptionCall.family).Nodup :=
      ((h12.filterMap OptionCall.family).nodup_iff).mp hnd
    have hq2 : ∀ qa ∈ l2.filterMap OptionCall.query, ∀ qb ∈ l2.filterMap OptionCall.query,
        qa = qb := by
      intro qa ha qb hb
      exact hq qa (((h12.filterMap OptionCall.query).mem_iff).mpr ha) qb
        (((h12.filterMap OptionCall.query).mem_iff).mpr hb)
    rw [e12] at hok ⊢
    exact ih2 hnd2 hq2 e hok

/-! ## Claims on the aggregation engine -/

/-- C1 (as stated, refuted): with Firefox before Chrome in priority, the Firefox adapter
succeeding with one Record and the Chrome adapter failing, `engine.Bookmarks` returns the
error together with the Record accumulated from Firefox, not an empty collection. -/
theorem C1_partial_collection_returned :
    failFastEngine.bookmarkers Firefox = some (succeeding [recordA]) ∧
    (succeeding [recordA]).Bookmarks = some ([recordA], none) ∧
    failFastEngine.bookmarkers Chrome = some failing ∧
    failing.Bookmarks = some ([], some (GoError.errorString "open Bookmarks: no such file")) ∧
    engine.Bookmarks [Firefox, Chrome, Safari] failFastEngine
      = some ([recordA],
          some (GoError.loadFailed Chrome (GoError.errorString "open Bookmarks: no such file"))) ∧
    ¬ (∃ err, engine.Bookmarks [Firefox, Chrome, Safari] failFastEngine = some ([], some err)) := by
  refine ⟨rfl, rfl, rfl, rfl, rfl, ?_⟩
  rintro ⟨err, h⟩
  have h2 : engine.Bookmarks [Firefox, Chrome, Safari] failFastEngine
      = some ([recordA],
          some (GoError.loadFailed Chrome (GoError.errorString "open Bookmarks: no such file"))) :=
    rfl
  rw [h2] at h
  simp at h

/-- C1 (amended): when the adapters enabled before position `k` all succeed and the enabled
adapter at position `k` fails, `engine.Bookmarks` returns the error of that adapter wrapped
with its family, and the collection returned with it is the concatenation of the
collections of the adapters enabled before `k`, neither filtered nor deduplicated. -/
theorem C1_fail_fast_returns_accumulated (names : List bookmarkerName) (e : engine)
    (pre post : List bookmarkerName) (name : bookmarkerName) (bk : Bookmarker)
    (b : List Bookmark) (err : GoError)
    (hsplit : names = pre ++ name :: post)
    (hpre : ∀ n ∈ pre, ∀ bk, e.bookmarkers n = some bk → ∃ b, bk.Bookmarks = some (b, none))
    (hbk : e.bookmarkers name = some bk) (hfail : bk.Bookmarks = some (b, some err)) :
    engine.Bookmarks names e
      = some (engine.concatenation e pre, some (GoError.loadFailed name err)) := by
  subst hsplit
  have h := collect_of_first_failure e pre post name bk b err hbk hfail hpre []
  simp only [List.nil_append] at h
  simp [engine.Bookmarks, h]

/-- Witness of C1 (amended): the engine with Firefox succeeding and Chrome failing. -/
theorem C1_fail_fast_returns_accumulated_witness :
    engine.Bookmarks [Firefox, Chrome, Safari] failFastEngine
      = some (engine.concatenation failFastEngine [Firefox],
          some (GoError.loadFailed Chrome (GoError.errorString "open Bookmarks: no such file"))) :=
  C1_fail_fast_returns_accumulated [Firefox, Chrome, Safari] failFastEngine [Firefox] [Safari]
    Chrome failing [] (GoError.errorString "open Bookmarks: no such file") rfl
    (by
      intro n hn bk h
      rw [List.mem_singleton] at hn
      subst hn
      simp only [failFastEngine, Option.some.injEq] at h
      subst h
      exact ⟨[recordA], rfl⟩)
    rfl rfl

/-- C2: when every enabled adapter succeeds, `engine.Bookmarks` returns no error and the
collection `D (F C)`: `C` the concatenation of the enabled adapters' collections in the
order of the priority table, `F` the folder-prefix filter when `folderQuery` is non-empty
and the identity otherwise, `D` the deduplication by uri when `removeDuplicates` is set
and the identity otherwise. -/
theorem C2_success_pipeline (names : List bookmarkerName) (e : engine)
    (hall : ∀ n ∈ names, ∀ bk, e.bookmarkers n = some bk → ∃ b, bk.Bookmarks = some (b, none)) :
    engine.Bookmarks names e
      = some ((if e.removeDuplicates = true then uniqByURI else id)
              ((if e.folderQuery ≠ "" then fun c => filterByFolderPrefix c e.folderQuery else id)
                (engine.concatenation e names)), none) := by
  have h := collect_of_all_succeed e names hall []
  simp only [List.nil_append] at h
  by_cases hq : e.folderQuery = "" <;> by_cases hd : e.removeDuplicates = true <;>
    simp [engine.Bookmarks, h, hq, hd]

/-- Witness of C2: Firefox yields `recordA` (folder `/A`), Chrome yields `recordB`
(folder `/B`), the filter is `/B` and deduplication is on. -/
theorem C2_success_pipeline_witness :
    engine.Bookmarks [Firefox, Chrome, Safari] (twoFamilyEngine true "/B")
      = some ((if (twoFamilyEngine true "/B").removeDuplicates = true then uniqByURI else id)
              ((if (twoFamilyEngine true "/B").folderQuery ≠ ""
                  then fun c => filterByFolderPrefix c (twoFamilyEngine true "/B").folderQuery
                  else id)
                (engine.concatenation (twoFamilyEngine true "/B") [Firefox, Chrome, Safari])),
              none) :=
  C2_success_pipeline [Firefox, Chrome, Safari] (twoFamilyEngine true "/B")
    (by
      intro n _ bk h
      cases n <;> simp only [twoFamilyEngine, Option.some.injEq] at h
      · subst h; exact ⟨[recordA], rfl⟩
      · subst h; exact ⟨[recordB], rfl⟩
      · cases h)

/-- C3: provided the enabled adapters return (none panics), `engine.Bookmarks` returns an
error exactly when some enabled adapter of the priority table fails; and an error it
returns wraps the error of the first failing adapter in priority order (all enabled
adapters before it succeeded, the later ones are not looked at) in a message that names
that family. -/
theorem C3_error_iff_adapter_fails (names : List bookmarkerName) (e : engine)
    (hret : ∀ n ∈ names, ∀ bk, e.bookmarkers n = some bk → bk.Bookmarks ≠ none) :
    ((∃ bs err, engine.Bookmarks names e = some (bs, some err)) ↔
      ∃ n ∈ names, ∃ bk b err,
        e.bookmarkers n = some bk ∧ bk.Bookmarks = some (b, some err)) ∧
    (∀ bs err, engine.Bookmarks names e = some (bs, some err) →
      ∃ pre name post bk b inner, names = pre ++ name :: post ∧
        (∀ n ∈ pre, ∀ bk, e.bookmarkers n = some bk → ∃ b, bk.Bookmarks = some (b, none)) ∧
        e.bookmarkers name = some bk ∧ bk.Bookmarks = some (b, some inner) ∧
        err = GoError.loadFailed name inner ∧ err.Unwrap = some inner ∧
        ∀ nameString : bookmarkerName → String,
          err.Error nameString
            = "failed to load bookmarks in " ++ nameString name ++ ": "
                ++ inner.Error nameString) := by
  have hsplit : ∀ bs err, engine.Bookmarks names e = some (bs, some err) →
      engine.collect e names [] = some (bs, some err) := by
    intro bs err h
    unfold engine.Bookmarks at h
    split at h
    · cases h
    · exact h ▸ by assumption
    · simp at h
  refine ⟨⟨?_, ?_⟩, ?_⟩
  · rintro ⟨bs, err, h⟩
    obtain ⟨pre, name, post, bk, b, inner, hs, _, h1, h2, _⟩ :=
      collect_error_split e names [] bs err (hsplit bs err h)
    exact ⟨name, by simp [hs], bk, b, inner, h1, h2⟩
  · intro hex
    obtain ⟨bs, err, h⟩ := collect_error_of_failing e names hret hex []
    exact ⟨bs, err, by simp [engine.Bookmarks, h]⟩
  · intro bs err h
    obtain ⟨pre, name, post, bk, b, inner, hs, hp, h1, h2, h3⟩ :=
      collect_error_split e names [] bs err (hsplit bs err h)
    refine ⟨pre, name, post, bk, b, inner, hs, hp, h1, h2, h3, ?_, ?_⟩
    · rw [h3]; rfl
    · intro nameString; rw [h3]; rfl

/-- Witness of C3: the engine with Firefox succeeding and Chrome failing. -/
theorem C3_error_iff_adapter_fails_witness :
    ((∃ bs err, engine.Bookmarks [Firefox, Chrome, Safari] failFastEngine
        = some (bs, some err)) ↔
      ∃ n ∈ [Firefox, Chrome, Safari], ∃ bk b err,
        failFastEngine.bookmarkers n = some bk ∧ bk.Bookmarks = some (b, some err)) ∧
    (∀ bs err, engine.Bookmarks [Firefox, Chrome, Safari] failFastEngine
        = some (bs, some err) →
      ∃ pre name post bk b inner, [Firefox, Chrome, Safari] = pre ++ name :: post ∧
        (∀ n ∈ pre, ∀ bk, failFastEngine.bookmarkers n = some bk →
          ∃ b, bk.Bookmarks = some (b, none)) ∧
        failFastEngine.bookmarkers name = some bk ∧ bk.Bookmarks = some (b, some inner) ∧
        err = GoError.loadFailed name inner ∧ err.Unwrap = some inner ∧
        ∀ nameString : bookmarkerName → String,
          err.Error nameString
            = "failed to load bookmarks in " ++ nameString name ++ ": "
                ++ inner.Error nameString) :=
  C3_error_iff_adapter_fails [Firefox, Chrome, Safari] failFastEngine
    (by
      intro n _ bk h
      cases n <;> simp only [failFastEngine, Option.some.injEq] at h
      · subst h; simp [succeeding]
      · subst h; simp [failing]
      · cases h)

/-- C4: with `folderQuery = "/B"` and `removeDuplicates` set, when the concatenation of the
adapters' collections holds a Record `r1` in folder `/A` and later a Record `r2` in folder
`/B` with the same uri, no other Record sharing that uri, the collection returned contains
`r2` and not `r1`: it is the deduplication of the filtered sequence. -/
theorem C4_filter_then_dedup (names : List bookmarkerName) (e : engine) (r1 r2 : Bookmark)
    (l1 l2 l3 : List Bookmark)
    (hq : e.folderQuery = "/B") (hd : e.removeDuplicates = true)
    (hall : ∀ n ∈ names, ∀ bk, e.bookmarkers n = some bk → ∃ b, bk.Bookmarks = some (b, none))
    (hC : engine.concatenation e names = l1 ++ r1 :: l2 ++ r2 :: l3)
    (hf1 : r1.Folder = "/A") (hf2 : r2.Folder = "/B") (huri : r2.URI = r1.URI)
    (hother : ∀ r ∈ l1 ++ l2 ++ l3, r.URI ≠ r1.URI) :
    ∃ result, engine.Bookmarks names e = some (result, none) ∧ r2 ∈ result ∧ r1 ∉ result ∧
      result = uniqByURI (filterByFolderPrefix (engine.concatenation e names) "/B") := by
  have h := collect_of_all_succeed e names hall []
  simp only [List.nil_append] at h
  refine ⟨uniqByURI (filterByFolderPrefix (engine.concatenation e names) "/B"), ?_, ?_, ?_, rfl⟩
  · simp [engine.Bookmarks, h, hq, hd]
  · have hmemC : r2 ∈ engine.concatenation e names := by rw [hC]; simp
    have hmemF : r2 ∈ filterByFolderPrefix (engine.concatenation e names) "/B" := by
      rw [filterByFolderPrefix, List.mem_filter]
      refine ⟨hmemC, ?_⟩
      rw [hf2]; decide
    have hsome : ((filterByFolderPrefix (engine.concatenation e names) "/B").find?
        (fun b => decide (b.URI = r2.URI))).isSome = true := by
      rw [List.find?_isSome]
      exact ⟨r2, hmemF, by simp⟩
    obtain ⟨y, hy⟩ := Option.isSome_iff_exists.mp hsome
    have hyF := List.mem_of_find?_eq_some hy
    have hyU : y.URI = r2.URI := by simpa using List.find?_some hy
    rw [filterByFolderPrefix, List.mem_filter] at hyF
    have hyr2 : y = r2 := by
      have hyC := hyF.1
      rw [hC] at hyC
      simp only [List.mem_append, List.mem_cons] at hyC
      have hno : ∀ r, r ∈ l1 ∨ r ∈ l2 ∨ r ∈ l3 → r.URI ≠ r1.URI := by
        intro r hr
        apply hother r
        simp only [List.mem_append]
        tauto
      have hy1 : y.URI = r1.URI := hyU.trans huri
      rcases hyC with (hl1 | rfl | hl2) | rfl | hl3
      · exact absurd hy1 (hno y (Or.inl hl1))
      · have := hyF.2
        rw [hf1] at this
        exact absurd this (by decide)
      · exact absurd hy1 (hno y (Or.inr (Or.inl hl2)))
      · rfl
      · exact absurd hy1 (hno y (Or.inr (Or.inr hl3)))
    subst hyr2
    have hfind := uniqFrom_find (filterByFolderPrefix (engine.concatenation e names) "/B")
      y.URI [] (by simp)
    rw [hy] at hfind
    exact List.mem_of_find?_eq_some hfind
  · intro hmem
    have hF := (uniqFrom_sublist _ []).subset hmem
    rw [filterByFolderPrefix, List.mem_filter, hf1] at hF
    exact absurd hF.2 (by decide)

/-- Witness of C4: Firefox yields `recordA` (folder `/A`), Chrome yields `recordB`
(folder `/B`, same uri). -/
theorem C4_filter_then_dedup_witness :
    ∃ result, engine.Bookmarks [Firefox, Chrome, Safari] (twoFamilyEngine true "/B")
        = some (result, none) ∧ recordB ∈ result ∧ recordA ∉ result ∧
      result = uniqByURI (filterByFolderPrefix
        (engine.concatenation (twoFamilyEngine true "/B") [Firefox, Chrome, Safari]) "/B") :=
  C4_filter_then_dedup [Firefox, Chrome, Safari] (twoFamilyEngine true "/B") recordA recordB
    [] [] [] rfl rfl
    (by
      intro n _ bk h
      cases n <;> simp only [twoFamilyEngine, Option.some.injEq] at h
      · subst h; exact ⟨[recordA], rfl⟩
      · subst h; exact ⟨[recordB], rfl⟩
      · cases h)
    rfl rfl rfl rfl (by simp)

/-- C5 (as stated, refuted): Firefox precedes Chrome in priority, both yield a single
Record with uri `http://x.com`, deduplication is on; with the folder filter `/B` the one
Record returned is the one of Chrome, not the one of Firefox. -/
theorem C5_filter_changes_winner :
    (twoFamilyEngine true "/B").removeDuplicates = true ∧
    (twoFamilyEngine true "/B").bookmarkers Firefox = some (succeeding [recordA]) ∧
    (twoFamilyEngine true "/B").bookmarkers Chrome = some (succeeding [recordB]) ∧
    recordA.URI = "http://x.com" ∧ recordB.URI = "http://x.com" ∧
    engine.Bookmarks [Firefox, Chrome, Safari] (twoFamilyEngine true "/B")
      = some ([recordB], none) ∧
    recordB ≠ recordA ∧ recordB.BookmarkerName = Chrome := by
  refine ⟨rfl, rfl, rfl, rfl, rfl, ?_, by decide, rfl⟩
  decide

/-- C5 (amended): with `removeDuplicates` set and every enabled adapter succeeding, no two
Records of the returned collection have the same uri, the collection is a subsequence of
the filtered concatenation, and for every uri the Record kept is the first Record with
that uri in the filtered concatenation. In particular when family `A` comes before family
`B` in priority, no other family is enabled, both yield a single Record with uri
`http://x.com`, and the Record of `A` passes the folder filter (as it does when no filter
is configured), the result is exactly the Record of `A`. -/
theorem C5_dedup_first_wins (names : List bookmarkerName) (e : engine)
    (hd : e.removeDuplicates = true)
    (hall : ∀ n ∈ names, ∀ bk, e.bookmarkers n = some bk → ∃ b, bk.Bookmarks = some (b, none)) :
    ∃ result, engine.Bookmarks names e = some (result, none) ∧
      (result.map Bookmark.URI).Nodup ∧
      result.Sublist
        ((if e.folderQuery ≠ "" then fun c => filterByFolderPrefix c e.folderQuery else id)
          (engine.concatenation e names)) ∧
      (∀ u, result.find? (fun b => decide (b.URI = u))
        = ((if e.folderQuery ≠ "" then fun c => filterByFolderPrefix c e.folderQuery else id)
            (engine.concatenation e names)).find? (fun b => decide (b.URI = u))) ∧
      (∀ (A B : bookmarkerName) (bkA bkB : Bookmarker) (rA rB : Bookmark)
          (pre post : List bookmarkerName),
        names = pre ++ A :: post → B ∈ post →
        (∀ n ∈ pre, e.bookmarkers n = none) →
        (∀ n ∈ post, n ≠ A → n ≠ B → e.bookmarkers n = none) →
        e.bookmarkers A = some bkA → bkA.Bookmarks = some ([rA], none) →
        e.bookmarkers B = some bkB → bkB.Bookmarks = some ([rB], none) →
        rA.URI = "http://x.com" → rB.URI = "http://x.com" →
        (e.folderQuery = "" ∨ hasPrefix rA.Folder e.folderQuery = true) →
        result = [rA]) := by
  have h := collect_of_all_succeed e names hall []
  simp only [List.nil_append] at h
  have hres : engine.Bookmarks names e
      = some (uniqByURI
          ((if e.folderQuery ≠ "" then fun c => filterByFolderPrefix c e.folderQuery else id)
            (engine.concatenation e names)), none) := by
    by_cases hq : e.folderQuery = "" <;> simp [engine.Bookmarks, h, hq, hd]
  refine ⟨_, hres, uniqFrom_nodup _ [], uniqFrom_sublist _ [], ?_, ?_⟩
  · intro u
    exact uniqFrom_find _ u [] (by simp)
  · intro A B bkA bkB rA rB pre post hs _ hpre hpost hA hrA hB hrB huA huB hpass
    have hrecA : engine.recordsOf e A = [rA] := by simp [engine.recordsOf, hA, hrA]
    have hrecB : engine.recordsOf e B = [rB] := by simp [engine.recordsOf, hB, hrB]
    have hC : engine.concatenation e names = rA :: engine.concatenation e post := by
      rw [hs, concatenation_append, concatenation_disabled e pre hpre, concatenation_cons,
        hrecA]
      rfl
    have htail : ∀ y ∈ engine.concatenation e post, y.URI = rA.URI := by
      intro y hy
      obtain ⟨n, hn, hyn⟩ := mem_concatenation e post y hy
      by_cases hnA : n = A
      · rw [hnA, hrecA, List.mem_singleton] at hyn
        rw [hyn]
      · by_cases hnB : n = B
        · rw [hnB, hrecB, List.mem_singleton] at hyn
          rw [hyn, huA, huB]
        · simp [engine.recordsOf, hpost n hn hnA hnB] at hyn
    have hfil : ∃ t, (∀ y ∈ t, y.URI = rA.URI) ∧
        (if e.folderQuery ≠ "" then fun c => filterByFolderPrefix c e.folderQuery else id)
          (engine.concatenation e names) = rA :: t := by
      by_cases hq : e.folderQuery = ""
      · exact ⟨engine.concatenation e post, htail, by simp [hq, hC]⟩
      · have hp : hasPrefix rA.Folder e.folderQuery = true := by
          rcases hpass with h0 | h1
          · exact absurd h0 hq
          · exact h1
        refine ⟨filterByFolderPrefix (engine.concatenation e post) e.folderQuery, ?_, ?_⟩
        · intro y hy
          rw [filterByFolderPrefix, List.mem_filter] at hy
          exact htail y hy.1
        · simp [hq, hC, filterByFolderPrefix, hp]
    obtain ⟨t, ht, hEq⟩ := hfil
    rw [hEq, uniqByURI, uniqFrom, if_neg (by simp),
      uniqFrom_all_same rA t [rA.URI] (by simp) ht]

/-- Witness of C5 (amended): Firefox and Chrome each yield one Record with uri
`http://x.com`, deduplication is on and no folder filter is configured; the result is
the Record of Firefox alone. -/
theorem C5_dedup_first_wins_witness :
    engine.Bookmarks [Firefox, Chrome, Safari] (twoFamilyEngine true "")
      = some ([recordA], none) ∧ recordA.BookmarkerName = Firefox := by
  obtain ⟨result, hres, _, _, _, hpart⟩ :=
    C5_dedup_first_wins [Firefox, Chrome, Safari] (twoFamilyEngine true "") rfl
      (by
        intro n _ bk h
        cases n <;> simp only [twoFamilyEngine, Option.some.injEq] at h
        · subst h; exact ⟨[recordA], rfl⟩
        · subst h; exact ⟨[recordB], rfl⟩
        · cases h)
  have hone : result = [recordA] :=
    hpart Firefox Chrome (succeeding [recordA]) (succeeding [recordB]) recordA recordB
      [] [Chrome, Safari] rfl (by simp) (by simp)
      (by
        intro n hn hA hB
        simp only [List.mem_cons, List.mem_singleton, List.not_mem_nil, or_false] at hn
        rcases hn with rfl | rfl
        · exact absurd rfl hB
        · rfl)
      rfl rfl rfl rfl rfl rfl (Or.inl rfl)
  rw [hone] at hres
  exact ⟨hres, rfl⟩

/-- C6 (as stated, refuted): two option sequences that are permutations of each other, all
succeed and enable Firefox once, but set the folder filter to `/A` and `/B` in opposite
orders; the last filter wins, so one engine returns no Record and the other returns the
Record of folder `/A`. -/
theorem C6_filter_order_matters :
    List.Perm
      [OptionCall.firefox "" "default", OptionCall.filterByFolder "/A",
        OptionCall.filterByFolder "/B"]
      [OptionCall.firefox "" "default", OptionCall.filterByFolder "/B",
        OptionCall.filterByFolder "/A"] ∧
    (New ([OptionCall.firefox "" "default", OptionCall.filterByFolder "/A",
        OptionCall.filterByFolder "/B"].map (OptionCall.toOption sampleCollaborators))).2
      = none ∧
    (New ([OptionCall.firefox "" "default", OptionCall.filterByFolder "/B",
        OptionCall.filterByFolder "/A"].map (OptionCall.toOption sampleCollaborators))).2
      = none ∧
    ([OptionCall.firefox "" "default", OptionCall.filterByFolder "/A",
        OptionCall.filterByFolder "/B"].filterMap OptionCall.family).Nodup ∧
    engine.Bookmarks [Firefox, Chrome, Safari]
      (New ([OptionCall.firefox "" "default", OptionCall.filterByFolder "/A",
        OptionCall.filterByFolder "/B"].map (OptionCall.toOption sampleCollaborators))).1
      = some ([], none) ∧
    engine.Bookmarks [Firefox, Chrome, Safari]
      (New ([OptionCall.firefox "" "default", OptionCall.filterByFolder "/B",
        OptionCall.filterByFolder "/A"].map (OptionCall.toOption sampleCollaborators))).1
      = some ([recordA], none) := by
  refine ⟨List.Perm.cons _ (List.Perm.swap _ _ _), rfl, rfl, by decide, ?_, ?_⟩
  · decide
  · decide

/-- C6 (amended): for two option sequences passed to `New` that are permutations of each
other, that all succeed, that enable each family at most once and whose folder-filter
options all carry the same query (as when the filter is set at most once), `New` builds
the same engine without error, so `Bookmarks` returns the same result for both. -/
theorem C6_registration_order_independent (w : Collaborators) (names : List bookmarkerName)
    (opts1 opts2 : List OptionCall) (hperm : opts1.Perm opts2)
    (hok : (New (opts1.map (OptionCall.toOption w))).2 = none)
    (honce : (opts1.filterMap OptionCall.family).Nodup)
    (hquery : ∀ qa ∈ opts1.filterMap OptionCall.query,
      ∀ qb ∈ opts1.filterMap OptionCall.query, qa = qb) :
    (New (opts2.map (OptionCall.toOption w))).2 = none ∧
    (New (opts1.map (OptionCall.toOption w))).1 = (New (opts2.map (OptionCall.toOption w))).1 ∧
    engine.Bookmarks names (New (opts1.map (OptionCall.toOption w))).1
      = engine.Bookmarks names (New (opts2.map (OptionCall.toOption w))).1 := by
  have h : New (opts1.map (OptionCall.toOption w)) = New (opts2.map (OptionCall.toOption w)) :=
    New.apply_perm w opts1 opts2 hperm honce hquery _ hok
  rw [← h]
  exact ⟨hok, rfl, rfl⟩

/-- Witness of C6 (amended): Firefox, deduplication and one folder filter, given in two
orders. -/
theorem C6_registration_order_independent_witness :
    (New ([OptionCall.filterByFolder "/A", OptionCall.removeDuplicates,
        OptionCall.firefox "" "default"].map (OptionCall.toOption sampleCollaborators))).2
      = none ∧
    (New ([OptionCall.firefox "" "default", OptionCall.removeDuplicates,
        OptionCall.filterByFolder "/A"].map (OptionCall.toOption sampleCollaborators))).1
      = (New ([OptionCall.filterByFolder "/A", OptionCall.removeDuplicates,
        OptionCall.firefox "" "default"].map (OptionCall.toOption sampleCollaborators))).1 ∧
    engine.Bookmarks [Firefox, Chrome, Safari]
      (New ([OptionCall.firefox "" "default", OptionCall.removeDuplicates,
        OptionCall.filterByFolder "/A"].map (OptionCall.toOption sampleCollaborators))).1
      = engine.Bookmarks [Firefox, Chrome, Safari]
      (New ([OptionCall.filterByFolder "/A", OptionCall.removeDuplicates,
        OptionCall.firefox "" "default"].map (OptionCall.toOption sampleCollaborators))).1 :=
  C6_registration_order_independent sampleCollaborators [Firefox, Chrome, Safari]
    [OptionCall.firefox "" "default", OptionCall.removeDuplicates,
      OptionCall.filterByFolder "/A"]
    [OptionCall.filterByFolder "/A", OptionCall.removeDuplicates,
      OptionCall.firefox "" "default"]
    (List.Perm.trans (List.Perm.cons _ (List.Perm.swap _ _ _))
      (List.Perm.trans (List.Perm.swap _ _ _) (List.Perm.cons _ (List.Perm.swap _ _ _))))
    rfl (by decide) (by decide)

/-! ## Claims on the Chromium adapter -/

/-- C7: for every entry tree, every Record in the result of `convertToBookmarks("/")` has
a uri that `validateURL` accepts and a folder that begins with `/`, whatever the folder
names in the tree are; and the conversion does return a result when no pointer of the
tree is nil. -/
theorem C7_validity_invariant (validateURL : String → Except GoError url.URL)
    (entry : chromeBookmarkEntry) :
    (chromeBookmarkEntry.nilFree entry = true →
      ∃ bs, chromeBookmarkEntry.convertToBookmarks validateURL entry "/" = some bs) ∧
    ∀ bs, chromeBookmarkEntry.convertToBookmarks validateURL entry "/" = some bs →
      ∀ b ∈ bs, (∃ u, validateURL b.URI = Except.ok u) ∧ hasPrefix b.Folder "/" = true :=
  ⟨convertToBookmarks_returns validateURL entry "/",
    fun bs h => convertToBookmarks_valid validateURL entry "/" bs (by decide) h⟩

/-- Witness of C7: a tree with folders named `..`, `x/y` and `.` and one malformed uri. -/
theorem C7_validity_invariant_witness :
    chromeBookmarkEntry.convertToBookmarks sampleValidateURL oddNamesTree "/"
      = some [⟨Chrome, "/", "a", "a.com", "http://a.com"⟩,
          ⟨Chrome, "/x/y", "b", "b.com", "http://b.com"⟩,
          ⟨Chrome, "/", "c", "c.com", "http://c.com"⟩] ∧
    ∀ b ∈ [(⟨Chrome, "/", "a", "a.com", "http://a.com"⟩ : Bookmark),
          ⟨Chrome, "/x/y", "b", "b.com", "http://b.com"⟩,
          ⟨Chrome, "/", "c", "c.com", "http://c.com"⟩],
      (∃ u, sampleValidateURL b.URI = Except.ok u) ∧ hasPrefix b.Folder "/" = true :=
  ⟨by decide, (C7_validity_invariant sampleValidateURL oddNamesTree).2 _ (by decide)⟩

/-- C8 (the code at the failing input): converted from `/`, the traversal reaches the
folder named `..` with the accumulated path `/A` and passes `filepath.Join("/A", "..")`,
which is `/`, to its children; the Record of the url child carries the folder `/`, not the
path `/A/..` that appending the name as one new segment gives. -/
theorem C8_dotdot_folder_not_appended :
    Join "/A" ".." = "/" ∧
    chromeBookmarkEntry.convertToBookmarks sampleValidateURL
        (folderNode ".." [some (urlNode "a" "http://a.com")]) "/A"
      = some [⟨Chrome, "/", "a", "a.com", "http://a.com"⟩] ∧
    chromeBookmarkEntry.convertToBookmarks sampleValidateURL dotDotTree "/"
      = some [⟨Chrome, "/", "a", "a.com", "http://a.com"⟩] ∧
    hasPrefix "/A" "/" = true ∧ ".." ≠ "" ∧ "/" ≠ "/A" ++ "/" ++ ".." := by
  decide

/-- Where the code does append the name: for a folder path `f` that begins with `/` and is
in the cleaned form that `filepath.Join` produces (`Clean f = f`, as `/` itself is), and a
folder-type node with a non-nil children list whose name `n` is a plain segment (not
empty, without `/`, not `.` and not `..`), the folder path passed to each child is `f`
with `n` appended as one new path segment (`"/" + n` when `f` is `/`, otherwise
`f + "/" + n`), and every Record produced directly by a url child with a valid URL carries
that path. -/
theorem folder_appends_plain_segment (validateURL : String → Except GoError url.URL)
    (f n da guid id rawurl dm : String) (cs : List (Option chromeBookmarkEntry))
    (hroot : hasPrefix f "/" = true) (hclean : Clean f = f)
    (hne : n ≠ "") (hslash : '/' ∉ n.data) (hdot : n ≠ ".") (hdotdot : n ≠ "..") :
    chromeBookmarkEntry.convertToBookmarks validateURL
        (chromeBookmarkEntry.mk da guid id n "folder" rawurl (some cs) dm) f
      = (cs.mapM (fun c => chromeBookmarkEntry.convertPtr validateURL c
            (if f = "/" then "/" ++ n else f ++ "/" ++ n))).map List.flatten ∧
    ∀ (child : chromeBookmarkEntry) (u : url.URL) (bs : List Bookmark),
      some child ∈ cs → child.Type_ = "url" → validateURL child.URL = Except.ok u →
      chromeBookmarkEntry.convertToBookmarks validateURL
        (chromeBookmarkEntry.mk da guid id n "folder" rawurl (some cs) dm) f = some bs →
      ({ BookmarkerName := Chrome, Folder := if f = "/" then "/" ++ n else f ++ "/" ++ n,
         Title := child.Name, URI := child.URL, Domain := u.Host } : Bookmark) ∈ bs := by
  have hconv : chromeBookmarkEntry.convertToBookmarks validateURL
        (chromeBookmarkEntry.mk da guid id n "folder" rawurl (some cs) dm) f
      = chromeBookmarkEntry.rangeEntries validateURL cs
          (if f = "/" then "/" ++ n else f ++ "/" ++ n) := by
    rw [convertToBookmarks_mk, if_pos rfl, if_neg (by simp), if_pos hne, rangeChildren_some,
      Join_append_segment f n hroot hclean hne hslash hdot hdotdot]
  refine ⟨by rw [hconv, rangeEntries_eq_mapM], ?_⟩
  intro child u bs hmem htype hv hbs
  rw [hconv] at hbs
  obtain ⟨be, hbe, hsub⟩ := rangeEntries_mem validateURL cs _ bs hbs (some child) hmem
  apply hsub
  rw [convertPtr_some] at hbe
  cases child with
  | mk cda cguid cid cname ctype curl cchildren cdm =>
    simp only [chromeBookmarkEntry.Type_, chromeBookmarkEntry.URL,
      chromeBookmarkEntry.Name] at htype hv ⊢
    subst htype
    rw [convertToBookmarks_mk, if_neg (by decide), if_pos rfl, hv] at hbe
    cases hr : chromeBookmarkEntry.rangeChildren validateURL cchildren
        (if f = "/" then "/" ++ n else f ++ "/" ++ n) with
    | none => rw [hr] at hbe; cases hbe
    | some rest =>
      rw [hr] at hbe
      cases hbe
      simp

/-- The folder `Sub` under `/Work` passes `/Work/Sub` to its children. -/
theorem folder_appends_plain_segment_example :
    chromeBookmarkEntry.convertToBookmarks sampleValidateURL
        (chromeBookmarkEntry.mk "" "" "" "Sub" "folder" ""
          (some [some (urlNode "b" "http://b.com")]) "") "/Work"
      = ([some (urlNode "b" "http://b.com")].mapM
          (fun c => chromeBookmarkEntry.convertPtr sampleValidateURL c
            (if "/Work" = "/" then "/" ++ "Sub" else "/Work" ++ "/" ++ "Sub"))).map
          List.flatten ∧
    ∀ (child : chromeBookmarkEntry) (u : url.URL) (bs : List Bookmark),
      some child ∈ [some (urlNode "b" "http://b.com")] → child.Type_ = "url" →
      sampleValidateURL child.URL = Except.ok u →
      chromeBookmarkEntry.convertToBookmarks sampleValidateURL
        (chromeBookmarkEntry.mk "" "" "" "Sub" "folder" ""
          (some [some (urlNode "b" "http://b.com")]) "") "/Work" = some bs →
      ({ BookmarkerName := Chrome,
         Folder := if "/Work" = "/" then "/" ++ "Sub" else "/Work" ++ "/" ++ "Sub",
         Title := child.Name, URI := child.URL, Domain := u.Host } : Bookmark) ∈ bs :=
  folder_appends_plain_segment sampleValidateURL "/Work" "Sub" "" "" "" "" ""
    [some (urlNode "b" "http://b.com")] (by decide) (by decide) (by decide) (by decide)
    (by decide) (by decide)

/-- C9: for every folder-type node with a non-nil children list, `convertToBookmarks(f)` is
the concatenation, in child order, of the conversions of its children from the path `f`
when the name of the node is empty and from `filepath.Join(f, name)` otherwise (and it
panics when a child is a nil pointer). For a validator that accepts both URLs, the tree
folder `Work` [url `http://a.com`, folder `Sub` [url `http://b.com`]] converted from `/`
yields exactly two Records, `/Work` with `http://a.com` and then `/Work/Sub` with
`http://b.com`. -/
theorem C9_depth_first_order (validateURL : String → Except GoError url.URL) :
    (∀ (da guid id name rawurl dm f : String) (cs : List (Option chromeBookmarkEntry)),
      chromeBookmarkEntry.convertToBookmarks validateURL
          (chromeBookmarkEntry.mk da guid id name "folder" rawurl (some cs) dm) f
        = (cs.mapM (fun c => chromeBookmarkEntry.convertPtr validateURL c
              (if name = "" then f else Join f name))).map List.flatten) ∧
    (∀ (ua ub : url.URL) (ta tb : String),
      validateURL "http://a.com" = Except.ok ua → validateURL "http://b.com" = Except.ok ub →
      chromeBookmarkEntry.convertToBookmarks validateURL
          (folderNode "Work"
            [some (urlNode ta "http://a.com"),
             some (folderNode "Sub" [some (urlNode tb "http://b.com")])]) "/"
        = some [{ BookmarkerName := Chrome, Folder := "/Work", Title := ta,
                  URI := "http://a.com", Domain := ua.Host },
                { BookmarkerName := Chrome, Folder := "/Work/Sub", Title := tb,
                  URI := "http://b.com", Domain := ub.Host }]) := by
  constructor
  · intro da guid id name rawurl dm f cs
    rw [convertToBookmarks_mk, if_pos rfl, if_neg (by simp), rangeChildren_some,
      rangeEntries_eq_mapM]
    by_cases hn : name = ""
    · rw [if_neg (not_not.mpr hn), if_pos hn]
    · rw [if_pos hn, if_neg hn]
  · intro ua ub ta tb hva hvb
    have hJ1 : Join "/" "Work" = "/Work" := by decide
    have hJ2 : Join "/Work" "Sub" = "/Work/Sub" := by decide
    have hfu : ¬ ("url" = "folder") := by decide
    simp only [folderNode, urlNode, convertToBookmarks_mk, rangeChildren_some,
      rangeChildren_none, rangeEntries_cons, rangeEntries_nil, convertPtr_some, hJ1, hJ2,
      hva, hvb, hfu, if_true, if_false, Option.isNone_some, Option.isNone_none,
      Bool.false_eq_true, ne_eq, Option.map_some', List.append_nil, List.cons_append,
      List.nil_append, not_false_eq_true]
    simp [hJ2]

/-- Witness of C9: the example tree under the sample validator. -/
theorem C9_depth_first_order_witness :
    chromeBookmarkEntry.convertToBookmarks sampleValidateURL
        (folderNode "Work"
          [some (urlNode "a" "http://a.com"),
           some (folderNode "Sub" [some (urlNode "b" "http://b.com")])]) "/"
      = some [{ BookmarkerName := Chrome, Folder := "/Work", Title := "a",
                URI := "http://a.com", Domain := "a.com" },
              { BookmarkerName := Chrome, Folder := "/Work/Sub", Title := "b",
                URI := "http://b.com", Domain := "b.com" }] :=
  (C9_depth_first_order sampleValidateURL).2 ⟨"a.com"⟩ ⟨"b.com"⟩ "a" "b" rfl rfl

/-- A child whose conversion returns the empty collection can be left out of the loop
over the children. -/
theorem rangeEntries_skip (validateURL : String → Except GoError url.URL)
    (x : Option chromeBookmarkEntry) (folder : String)
    (hx : chromeBookmarkEntry.convertPtr validateURL x folder = some [])
    (pre post : List (Option chromeBookmarkEntry)) :
    chromeBookmarkEntry.rangeEntries validateURL (pre ++ x :: post) folder
      = chromeBookmarkEntry.rangeEntries validateURL (pre ++ post) folder := by
  induction pre with
  | nil =>
    rw [List.nil_append, List.nil_append, rangeEntries_cons, hx]
    cases chromeBookmarkEntry.rangeEntries validateURL post folder with
    | none => rfl
    | some rest => rfl
  | cons e es ih =>
    rw [List.cons_append, List.cons_append, rangeEntries_cons, rangeEntries_cons, ih]

/-- A folder node with a non-nil children list runs the loop over its children, from the
joined path when its name is not empty. -/
theorem convert_folder_some (validateURL : String → Except GoError url.URL)
    (da guid id name rawurl dm f : String) (cs : List (Option chromeBookmarkEntry)) :
    chromeBookmarkEntry.convertToBookmarks validateURL
        (chromeBookmarkEntry.mk da guid id name "folder" rawurl (some cs) dm) f
      = chromeBookmarkEntry.rangeEntries validateURL cs
          (if name ≠ "" then Join f name else f) := by
  rw [convertToBookmarks_mk, if_pos rfl, if_neg (by simp), rangeChildren_some]

/-- A folder node gives the same result with and without a child whose conversion returns
the empty collection from every folder path. -/
theorem folder_skip_child (validateURL : String → Except GoError url.URL)
    (da guid id name rawurl dm f : String) (x : Option chromeBookmarkEntry)
    (hx : ∀ folder, chromeBookmarkEntry.convertPtr validateURL x folder = some [])
    (pre post : List (Option chromeBookmarkEntry)) :
    chromeBookmarkEntry.convertToBookmarks validateURL
        (chromeBookmarkEntry.mk da guid id name "folder" rawurl (some (pre ++ x :: post)) dm) f
      = chromeBookmarkEntry.convertToBookmarks validateURL
        (chromeBookmarkEntry.mk da guid id name "folder" rawurl (some (pre ++ post)) dm) f := by
  rw [convert_folder_some, convert_folder_some, rangeEntries_skip validateURL x _ (hx _)]

/-- A url node whose stored URL fails validation returns the empty collection. -/
theorem invalid_url_empty (validateURL : String → Except GoError url.URL)
    (da guid id name rawurl dm f : String)
    (children : Option (List (Option chromeBookmarkEntry))) (err : GoError)
    (hv : validateURL rawurl = Except.error err) :
    chromeBookmarkEntry.convertToBookmarks validateURL
        (chromeBookmarkEntry.mk da guid id name "url" rawurl children dm) f = some [] := by
  have hfu : ¬ ("url" = "folder") := by decide
  rw [convertToBookmarks_mk, if_neg hfu, if_pos rfl, hv]

/-- A folder node whose children list is nil or empty returns the empty collection. -/
theorem empty_folder_empty (validateURL : String → Except GoError url.URL)
    (da guid id name rawurl dm f : String)
    (children : Option (List (Option chromeBookmarkEntry)))
    (hc : children = none ∨ children = some []) :
    chromeBookmarkEntry.convertToBookmarks validateURL
        (chromeBookmarkEntry.mk da guid id name "folder" rawurl children dm) f = some [] := by
  rcases hc with hc | hc
  · rw [hc, convertToBookmarks_mk, if_pos rfl]
    rfl
  · rw [hc, convert_folder_some, rangeEntries_nil]

/-! ## Further claims on the Chromium adapter -/

/-- C11: a node of type `url` whose stored URL fails `validateURL` returns the empty
collection (the call returns, it does not fail), and a folder node that has such a node
among its children returns what the same folder returns with that child removed, the
siblings before and after it being converted in order. -/
theorem C11_malformed_uri_drop (validateURL : String → Except GoError url.URL) :
    (∀ (da guid id name rawurl dm f : String)
        (children : Option (List (Option chromeBookmarkEntry))) (err : GoError),
      validateURL rawurl = Except.error err →
      chromeBookmarkEntry.convertToBookmarks validateURL
        (chromeBookmarkEntry.mk da guid id name "url" rawurl children dm) f = some []) ∧
    (∀ (da guid id name rawurl dm f : String) (pre post : List (Option chromeBookmarkEntry))
        (bad : chromeBookmarkEntry) (err : GoError),
      bad.Type_ = "url" → validateURL bad.URL = Except.error err →
      chromeBookmarkEntry.convertToBookmarks validateURL
          (chromeBookmarkEntry.mk da guid id name "folder" rawurl
            (some (pre ++ some bad :: post)) dm) f
        = chromeBookmarkEntry.convertToBookmarks validateURL
          (chromeBookmarkEntry.mk da guid id name "folder" rawurl (some (pre ++ post)) dm) f) := by
  refine ⟨fun da guid id name rawurl dm f children err hv =>
    invalid_url_empty validateURL da guid id name rawurl dm f children err hv, ?_⟩
  intro da guid id name rawurl dm f pre post bad err ht hv
  apply folder_skip_child
  intro folder
  rw [convertPtr_some]
  cases bad with
  | mk bda bguid bid bname btype burl bchildren bdm =>
    simp only [chromeBookmarkEntry.Type_, chromeBookmarkEntry.URL] at ht hv
    subst ht
    exact invalid_url_empty validateURL bda bguid bid bname burl bdm folder bchildren err hv

/-- Witness of C11: the folder `Work` with a malformed url node between two valid ones. -/
theorem C11_malformed_uri_drop_witness :
    chromeBookmarkEntry.convertToBookmarks sampleValidateURL (urlNode "bad" "not a uri") "/"
      = some [] ∧
    chromeBookmarkEntry.convertToBookmarks sampleValidateURL
        (folderNode "Work"
          [some (urlNode "a" "http://a.com"), some (urlNode "bad" "not a uri"),
           some (urlNode "b" "http://b.com")]) "/"
      = chromeBookmarkEntry.convertToBookmarks sampleValidateURL
        (folderNode "Work"
          [some (urlNode "a" "http://a.com"), some (urlNode "b" "http://b.com")]) "/" :=
  ⟨(C11_malformed_uri_drop sampleValidateURL).1 "" "" "" "bad" "not a uri" "" "/" none
      (GoError.errorString "invalid URI") rfl,
    (C11_malformed_uri_drop sampleValidateURL).2 "" "" "" "Work" "" "" "/"
      [some (urlNode "a" "http://a.com")] [some (urlNode "b" "http://b.com")]
      (urlNode "bad" "not a uri") (GoError.errorString "invalid URI") rfl rfl⟩

/-- C12: a folder-type node whose children list is nil or empty returns the empty
collection whatever its name, and a parent folder that has such a node among its children
returns what it returns without that node: the Records of the siblings, their folder paths
and their order are unchanged. -/
theorem C12_empty_folder_termination (validateURL : String → Except GoError url.URL) :
    (∀ (da guid id name rawurl dm f : String)
        (children : Option (List (Option chromeBookmarkEntry))),
      children = none ∨ children = some [] →
      chromeBookmarkEntry.convertToBookmarks validateURL
        (chromeBookmarkEntry.mk da guid id name "folder" rawurl children dm) f = some []) ∧
    (∀ (da guid id name rawurl dm f : String) (pre post : List (Option chromeBookmarkEntry))
        (empty : chromeBookmarkEntry),
      empty.Type_ = "folder" → empty.Children = none ∨ empty.Children = some [] →
      chromeBookmarkEntry.convertToBookmarks validateURL
          (chromeBookmarkEntry.mk da guid id name "folder" rawurl
            (some (pre ++ some empty :: post)) dm) f
        = chromeBookmarkEntry.convertToBookmarks validateURL
          (chromeBookmarkEntry.mk da guid id name "folder" rawurl (some (pre ++ post)) dm) f) := by
  refine ⟨fun da guid id name rawurl dm f children hc =>
    empty_folder_empty validateURL da guid id name rawurl dm f children hc, ?_⟩
  intro da guid id name rawurl dm f pre post empty ht hc
  apply folder_skip_child
  intro folder
  rw [convertPtr_some]
  cases empty with
  | mk eda eguid eid ename etype eurl echildren edm =>
    simp only [chromeBookmarkEntry.Type_, chromeBookmarkEntry.Children] at ht hc
    subst ht
    exact empty_folder_empty validateURL eda eguid eid ename eurl edm folder echildren hc

/-- Witness of C12: the folder `Work` with an empty folder `Old` (empty children list) and
a folder `Gone` (no children list) between two url nodes. -/
theorem C12_empty_folder_termination_witness :
    chromeBookmarkEntry.convertToBookmarks sampleValidateURL (emptyFolder "Old" (some [])) "/"
      = some [] ∧
    chromeBookmarkEntry.convertToBookmarks sampleValidateURL (emptyFolder "Gone" none) "/"
      = some [] ∧
    chromeBookmarkEntry.convertToBookmarks sampleValidateURL
        (folderNode "Work"
          [some (urlNode "a" "http://a.com"), some (emptyFolder "Old" (some [])),
           some (urlNode "b" "http://b.com")]) "/"
      = chromeBookmarkEntry.convertToBookmarks sampleValidateURL
        (folderNode "Work"
          [some (urlNode "a" "http://a.com"), some (urlNode "b" "http://b.com")]) "/" :=
  ⟨(C12_empty_folder_termination sampleValidateURL).1 "" "" "" "Old" "" "" "/" (some [])
      (Or.inr rfl),
    (C12_empty_folder_termination sampleValidateURL).1 "" "" "" "Gone" "" "" "/" none
      (Or.inl rfl),
    (C12_empty_folder_termination sampleValidateURL).2 "" "" "" "Work" "" "" "/"
      [some (urlNode "a" "http://a.com")] [some (urlNode "b" "http://b.com")]
      (emptyFolder "Old" (some [])) rfl (Or.inr rfl)⟩

/-- C14 (the code at the failing inputs): after a successful load of a root whose `synced`
sub-tree is absent, or of a root in which a children array holds a `null` entry, the
conversion of the Chromium adapter dereferences a nil pointer and panics; it returns no
collection. -/
theorem C14_nil_pointer_panics :
    chromeBookmark.Bookmarks (fun _ _ => (rootWithoutSynced, none)) sampleValidateURL
        sampleChrome = none ∧
    chromeBookmark.Bookmarks (fun _ _ => (rootWithNullChild, none)) sampleValidateURL
        sampleChrome = none := by
  constructor <;> decide

/-- C15: after a successful load of a root whose three sub-trees are present,
`chromeBookmark.Bookmarks` returns no error and exactly the Records of the bookmark bar,
then those of the synced sub-tree, then those of the other sub-tree, each converted from
the folder path `/` (when the three conversions return; they do when no pointer below the
sub-trees is nil). -/
theorem C15_subtree_order
    (load : String → chromeBookmarkRoot → chromeBookmarkRoot × Option GoError)
    (validateURL : String → Except GoError url.URL) (b : chromeBookmark)
    (root : chromeBookmarkRoot) (bar synced other : chromeBookmarkEntry)
    (hload : load b.bookmarkPath b.bookmarkRoot = (root, none))
    (hbar : root.Roots.BookmarkBar = some bar) (hsynced : root.Roots.Synced = some synced)
    (hother : root.Roots.Other = some other) :
    (∀ b1 b2 b3,
      chromeBookmarkEntry.convertToBookmarks validateURL bar "/" = some b1 →
      chromeBookmarkEntry.convertToBookmarks validateURL synced "/" = some b2 →
      chromeBookmarkEntry.convertToBookmarks validateURL other "/" = some b3 →
      chromeBookmark.Bookmarks load validateURL b = some (b1 ++ b2 ++ b3, none)) ∧
    (chromeBookmarkEntry.nilFree bar = true → chromeBookmarkEntry.nilFree synced = true →
      chromeBookmarkEntry.nilFree other = true →
      ∃ b1 b2 b3,
        chromeBookmarkEntry.convertToBookmarks validateURL bar "/" = some b1 ∧
        chromeBookmarkEntry.convertToBookmarks validateURL synced "/" = some b2 ∧
        chromeBookmarkEntry.convertToBookmarks validateURL other "/" = some b3 ∧
        chromeBookmark.Bookmarks load validateURL b = some (b1 ++ b2 ++ b3, none)) := by
  have hmain : ∀ b1 b2 b3,
      chromeBookmarkEntry.convertToBookmarks validateURL bar "/" = some b1 →
      chromeBookmarkEntry.convertToBookmarks validateURL synced "/" = some b2 →
      chromeBookmarkEntry.convertToBookmarks validateURL other "/" = some b3 →
      chromeBookmark.Bookmarks load validateURL b = some (b1 ++ b2 ++ b3, none) := by
    intro b1 b2 b3 h1 h2 h3
    simp only [chromeBookmark.Bookmarks, hload, hbar, hsynced, hother, convertPtr_some, h1,
      h2, h3]
  refine ⟨hmain, ?_⟩
  intro n1 n2 n3
  obtain ⟨b1, h1⟩ := convertToBookmarks_returns validateURL bar "/" n1
  obtain ⟨b2, h2⟩ := convertToBookmarks_returns validateURL synced "/" n2
  obtain ⟨b3, h3⟩ := convertToBookmarks_returns validateURL other "/" n3
  exact ⟨b1, b2, b3, h1, h2, h3, hmain b1 b2 b3 h1 h2 h3⟩

/-- Witness of C15: a root with one url node in each of the three sub-trees. -/
theorem C15_subtree_order_witness :
    chromeBookmark.Bookmarks (fun _ _ => (fullRoot, none)) sampleValidateURL sampleChrome
      = some ([⟨Chrome, "/", "a", "a.com", "http://a.com"⟩]
          ++ [⟨Chrome, "/", "b", "b.com", "http://b.com"⟩]
          ++ [⟨Chrome, "/", "c", "c.com", "http://c.com"⟩], none) :=
  (C15_subtree_order (fun _ _ => (fullRoot, none)) sampleValidateURL sampleChrome fullRoot
    (folderNode "" [some (urlNode "a" "http://a.com")])
    (folderNode "" [some (urlNode "b" "http://b.com")])
    (folderNode "" [some (urlNode "c" "http://c.com")]) rfl rfl rfl rfl).1
    _ _ _ (by decide) (by decide) (by decide)

/-- C16: a node whose type is neither `folder` nor `url` (the empty type included)
produces no Record of its own: `convertToBookmarks(f)` is the concatenation, in child
order, of the conversions of its children from the same folder path `f`, whatever the
name of the node is. -/
theorem C16_unrecognised_type_transparent (validateURL : String → Except GoError url.URL)
    (da guid id name type rawurl dm f : String)
    (children : Option (List (Option chromeBookmarkEntry)))
    (hfolder : type ≠ "folder") (hurl : type ≠ "url") :
    chromeBookmarkEntry.convertToBookmarks validateURL
        (chromeBookmarkEntry.mk da guid id name type rawurl children dm) f
      = ((children.getD []).mapM
            (fun c => chromeBookmarkEntry.convertPtr validateURL c f)).map List.flatten := by
  rw [convertToBookmarks_mk, if_neg hfolder, if_neg hurl]
  cases children with
  | none => rw [rangeChildren_none]; rfl
  | some cs => rw [rangeChildren_some, rangeEntries_eq_mapM]; rfl

/-- Witness of C16: a node of type `separator` named `Misc` with one url child. -/
theorem C16_unrecognised_type_transparent_witness :
    chromeBookmarkEntry.convertToBookmarks sampleValidateURL
        (chromeBookmarkEntry.mk "" "" "" "Misc" "separator" ""
          (some [some (urlNode "a" "http://a.com")]) "") "/Work"
      = (((some [some (urlNode "a" "http://a.com")]).getD []).mapM
            (fun c => chromeBookmarkEntry.convertPtr sampleValidateURL c "/Work")).map
          List.flatten :=
  C16_unrecognised_type_transparent sampleValidateURL "" "" "" "Misc" "separator" "" ""
    "/Work" (some [some (urlNode "a" "http://a.com")]) (by decide) (by decide)

/-! ## Further claims on the engine and its builder -/

theorem New.apply_of_noneFails (opts : List (Option OptionFn)) :
    ∀ e, noneFails opts e = true → New.apply opts e = (applyInOrder opts e, none) := by
  induction opts with
  | nil => intro e _; rfl
  | cons o os ih =>
    intro e h
    cases o with
    | none => exact ih e h
    | some opt =>
      simp only [noneFails, Bool.and_eq_true, Option.isNone_iff_eq_none] at h
      rcases hr : opt e with ⟨e1, oerr⟩
      rw [hr] at h
      simp only at h
      simp only [New.apply, applyInOrder, hr, h.1]
      exact ih e1 h.2

theorem New.apply_append (pre rest : List (Option OptionFn)) :
    ∀ e, noneFails pre e = true →
      New.apply (pre ++ rest) e = New.apply rest (applyInOrder pre e) := by
  induction pre with
  | nil => intro e _; rfl
  | cons o os ih =>
    intro e h
    cases o with
    | none => exact ih e h
    | some opt =>
      simp only [noneFails, Bool.and_eq_true, Option.isNone_iff_eq_none] at h
      rcases hr : opt e with ⟨e1, oerr⟩
      rw [hr] at h
      simp only at h
      simp only [List.cons_append, New.apply, applyInOrder, hr, h.1]
      exact ih e1 h.2

/-- C13: when the option at some index is the first to fail, `New` returns the error of
that option together with the engine that the options before it built, in order, and that
the failing option itself left; the options after it play no part. When no option fails,
`New` returns no error and the engine obtained by applying all options in order. -/
theorem C13_builder_abort_on_first_failure :
    (∀ (pre post : List (Option OptionFn)) (opt : OptionFn) (err : GoError),
      noneFails pre newEngine = true →
      (opt (applyInOrder pre newEngine)).2 = some err →
      New (pre ++ some opt :: post) = ((opt (applyInOrder pre newEngine)).1, some err)) ∧
    (∀ opts : List (Option OptionFn),
      noneFails opts newEngine = true → New opts = (applyInOrder opts newEngine, none)) := by
  constructor
  · intro pre post opt err hpre hfail
    show New.apply (pre ++ some opt :: post) newEngine = _
    rw [New.apply_append pre _ newEngine hpre]
    rcases hr : opt (applyInOrder pre newEngine) with ⟨e1, oerr⟩
    rw [hr] at hfail
    simp only at hfail
    simp only [New.apply, hr, hfail]
  · intro opts h
    exact New.apply_of_noneFails opts newEngine h

/-- Witness of C13: deduplication and a nil option, then an option that sets the folder
query and fails, then a folder filter that is never applied. -/
theorem C13_builder_abort_on_first_failure_witness :
    New ([some OptionRemoveDuplicates, none] ++ some failingOption
        :: [some (OptionFilterByFolder "/A")])
      = ((failingOption (applyInOrder [some OptionRemoveDuplicates, none] newEngine)).1,
          some (GoError.errorString "profile not found")) ∧
    (failingOption (applyInOrder [some OptionRemoveDuplicates, none] newEngine)).1.folderQuery
      = "/half" ∧
    (failingOption
      (applyInOrder [some OptionRemoveDuplicates, none] newEngine)).1.removeDuplicates = true ∧
    New [some OptionRemoveDuplicates, none, some (OptionFilterByFolder "/A")]
      = (applyInOrder [some OptionRemoveDuplicates, none, some (OptionFilterByFolder "/A")]
          newEngine, none) :=
  ⟨C13_builder_abort_on_first_failure.1 [some OptionRemoveDuplicates, none]
      [some (OptionFilterByFolder "/A")] failingOption
      (GoError.errorString "profile not found") rfl rfl,
    rfl, rfl,
    C13_builder_abort_on_first_failure.2
      [some OptionRemoveDuplicates, none, some (OptionFilterByFolder "/A")] rfl⟩

/-- C17: an engine with no enabled adapter among the families of the priority table
returns no error and an empty collection, whatever its folder filter and its
deduplication flag; the engine built by `New` with no options is such an engine. -/
theorem C17_empty_registry (names : List bookmarkerName) :
    (∀ e : engine, (∀ n ∈ names, e.bookmarkers n = none) →
      engine.Bookmarks names e = some ([], none)) ∧
    New [] = (newEngine, none) ∧ (∀ n, (New []).1.bookmarkers n = none) ∧
    engine.Bookmarks names (New []).1 = some ([], none) := by
  have hgen : ∀ e : engine, (∀ n ∈ names, e.bookmarkers n = none) →
      engine.Bookmarks names e = some ([], none) := by
    intro e hnone
    have h := collect_of_all_succeed e names
      (fun n hn bk hbk => by rw [hnone n hn] at hbk; cases hbk) []
    rw [concatenation_disabled e names hnone] at h
    by_cases hq : e.folderQuery = "" <;> by_cases hd : e.removeDuplicates = true <;>
      simp [engine.Bookmarks, h, hq, hd, filterByFolderPrefix, uniqByURI, uniqFrom]
  exact ⟨hgen, rfl, fun _ => rfl, hgen _ (fun _ _ => rfl)⟩

/-- Witness of C17: an engine without adapters, with a folder filter and deduplication. -/
theorem C17_empty_registry_witness :
    engine.Bookmarks [Firefox, Chrome, Safari]
        { bookmarkers := fun _ => none, removeDuplicates := true, folderQuery := "/A" }
      = some ([], none) :=
  (C17_empty_registry [Firefox, Chrome, Safari]).1
    { bookmarkers := fun _ => none, removeDuplicates := true, folderQuery := "/A" }
    (fun _ _ => rfl)

end bookmarker
